import Mathlib

/-!
# Docker tag upgrade resolution

A shallow embedding of `lib/manager/docker/package.js`: the tag parser
(`getVersion`, `getSuffix`), the stability test (`isStable`,
`isStableChecked`) and the resolver (`getPackageUpdates`,
`getPackageUpdatesChecked`), followed by the properties proved about them.

Modelling conventions.

* JavaScript strings are Lean strings; indices count characters. The only
  separator searched for is the ASCII character `-` (and `.` for the component
  count), so splitting by position yields the same pieces as in the source.
* A value that may be `undefined` or `null` is an `Option`; truthiness of a
  string value is `truthy` (present and not the empty string).
* The collaborators the source obtains through `require` (the version scheme,
  the `compare-versions` package, the registry client) and the built-in
  regular-expression engine are the fields of `Env`. They are total functions
  of the arguments the source passes by name: an exception raised inside the
  version scheme, the comparison or the registry client is outside the model,
  and the registry is taken to answer the same question the same way during
  one call.
* The `SyntaxError` that `new RegExp(unstablePattern)` throws on an ill-formed
  pattern is modelled: `isStableChecked`, the stability filter and
  `getPackageUpdatesChecked` carry it. `isStable` and `getPackageUpdates` are
  the same functions on the patterns the constructor accepts
  (`getPackageUpdatesChecked_eq`); on a rejected pattern the resolver throws
  at source line 69 (`getPackageUpdatesChecked_rejected`).
* A major version is a natural number. As a property key of the object
  `versionUpgrades` it is kept as the number (`UpgradeKey.num`), distinct
  numbers giving distinct keys, none of them `'latest'` or `'major'`.
* `async`/`await` is sequential here; the thrown `Error('registry-failure')`
  is the `Except.error` result.
* Logging calls and the fields read only for logging (`currentFrom`,
  `currentDepTag`) are left out.
-/

namespace Docker

/-! ## Strings -/

/-- Index of the first occurrence of `c` in a list of characters, if any. -/
def findIndex (c : Char) : List Char → Option Nat
  | [] => none
  | x :: xs => if x = c then some 0 else (findIndex c xs).map (· + 1)

/-- The method `String.prototype.indexOf` for a one-character needle: the index of
the first occurrence, or `-1`. -/
def indexOf (tag : String) (c : Char) : Int :=
  match findIndex c tag.data with
  | some i => (i : Int)
  | none => -1

/-- The pieces of a character list between occurrences of `c`
(`String.prototype.split` with a one-character separator); never empty. -/
def splitChars (c : Char) : List Char → List (List Char)
  | [] => [[]]
  | x :: xs =>
    if x = c then [] :: splitChars c xs
    else
      match splitChars c xs with
      | [] => [[x]]
      | p :: ps => (x :: p) :: ps

/-- The method `s.split(c)` on strings. -/
def split (s : String) (c : Char) : List String :=
  (splitChars c s.data).map String.mk

/-- The method `s.slice(a, b)` for non-negative `a ≤ b`. -/
def slice (s : String) (a b : Nat) : String :=
  String.mk ((s.data.drop a).take (b - a))

/-- Truthiness of an optional string: present and non-empty. -/
def truthy : Option String → Bool
  | some s => decide (s ≠ "")
  | none => false

/-! ## Tag parser (source lines 174-182) -/

/-- Source `getVersion`: the part of the tag before its first `-`, when that
dash is not the first character; the whole tag otherwise. -/
def getVersion (tag : String) : String :=
  let split := indexOf tag '-'
  if split > 0 then String.mk (tag.data.take split.toNat) else tag

/-- Source `getSuffix`: the part of the tag after its first `-`, when that
dash is not the first character; the empty string otherwise. -/
def getSuffix (tag : String) : String :=
  let split := indexOf tag '-'
  if split > 0 then String.mk (tag.data.drop (split + 1).toNat) else ""

/-- The tag rebuilt from its parsed pieces: `version` when the suffix is
empty, `version-suffix` otherwise (the reassembly of source lines 119-123
applied to the pieces of one tag). -/
def rebuild (tag : String) : String :=
  if getSuffix tag = "" then getVersion tag
  else getVersion tag ++ "-" ++ getSuffix tag

/-! ## Collaborators, configuration and records -/

/-- A digest as the registry client returns it: `undefined`, `null` or a
string. -/
inductive Digest where
  | undefined
  | null
  | str (s : String)
deriving DecidableEq, Repr

/-- Truthiness of a digest value: a non-empty string. -/
def Digest.truthy : Digest → Bool
  | .str s => decide (s ≠ "")
  | _ => false

/-- The text a digest contributes to a template literal. -/
def Digest.text : Digest → String
  | .str s => s
  | .undefined => "undefined"
  | .null => "null"

/-- The collaborators of the resolver.

* `getMajor`, `isValid`: the result of `versioning('semver')`;
* `compareVersions`: the `compare-versions` package, negative, zero or
  positive;
* `regExpAccepts p`: whether `new RegExp(p)` returns; for an ill-formed
  pattern such as `(` it throws a `SyntaxError`;
* `regExpMatch p s`: for an accepted pattern, whether
  `s.match(new RegExp(p))` is not `null`;
* `getDigest registry name tag`, `getTags registry name`: the registry
  client `dockerApi`. -/
structure Env where
  getMajor : String → Nat
  isValid : String → Bool
  compareVersions : String → String → Int
  regExpAccepts : String → Bool
  regExpMatch : String → String → Bool
  getDigest : Option String → String → Option String → Digest
  getTags : Option String → String → Option (List String)

/-- The fields of `config` the resolver reads. `majorAutomerge` is
`config.major.automerge === true`. -/
structure Config where
  dockerRegistry : Option String
  depName : String
  currentTag : Option String
  currentDigest : Option String
  unstablePattern : Option String
  ignoreUnstable : Bool
  pinDigests : Bool
  separateMajorMinor : Bool
  separateMultipleMajor : Bool
  groupName : Option String
  majorAutomerge : Bool

/-- The `type` of an upgrade record. -/
inductive UpgradeType where
  | pin
  | digest
  | major
  | minor
deriving DecidableEq, Repr

/-- An upgrade record. A property the source never assigns is `none`
(`undefined` for `newDigest`, `false` for `isRange`). -/
structure Upgrade where
  newTag : String
  newMajor : Option String
  newValue : String
  newDepTag : Option String
  newFrom : String
  newDigest : Digest
  newDigestShort : Option String
  type : UpgradeType
  isRange : Bool
deriving DecidableEq, Repr

/-- Whether a record was produced by the tag branch (type `major` or
`minor`). -/
def Upgrade.isTagRecord (u : Upgrade) : Bool :=
  u.type = UpgradeType.major || u.type = UpgradeType.minor

/-- Whether a record was produced by the digest branch (type `pin` or
`digest`). -/
def Upgrade.isDigestRecord (u : Upgrade) : Bool :=
  u.type = UpgradeType.pin || u.type = UpgradeType.digest

/-! ## Stability (source lines 168-172) -/

/-- The value source `isStable` returns when it returns: with a truthy
pattern, the tag is stable when the pattern does not match it; without one
every tag is stable. The exception of `new RegExp(unstablePattern)` for an
ill-formed pattern is in `isStableChecked`. -/
def isStable (E : Env) (tag : String) (unstablePattern : Option String) : Bool :=
  match unstablePattern with
  | some p => if p ≠ "" then !E.regExpMatch p tag else true
  | none => true

/-! ## Digest branch (source lines 23-57) -/

/-- Whether digest handling is requested: `currentDigest || config.pinDigests`. -/
def digestActive (config : Config) : Bool :=
  truthy config.currentDigest || config.pinDigests

/-- The expression `currentTag || 'latest'`. -/
def tagOrLatest (currentTag : Option String) : String :=
  match currentTag with
  | some t => if t ≠ "" then t else "latest"
  | none => "latest"

/-- The start of `newFrom`: the registry followed by `/` when a registry is
set, the empty string otherwise. -/
def registryPrefix (config : Config) : String :=
  match config.dockerRegistry with
  | some r => if r ≠ "" then r ++ "/" else ""
  | none => ""

/-- The record built at source lines 38-55 for the registry digest
`newDigest` of the current tag. -/
def digestUpgrade (config : Config) (newDigest : String) : Upgrade :=
  let newTag := tagOrLatest config.currentTag
  let newDigestShort := slice newDigest 7 13
  { newTag := newTag
    newMajor := none
    newValue := newDigestShort
    newDepTag := none
    newFrom := registryPrefix config ++ (config.depName ++ ":" ++ newTag ++ "@" ++ newDigest)
    newDigest := Digest.str newDigest
    newDigestShort := some newDigestShort
    type := if truthy config.currentDigest then UpgradeType.digest else UpgradeType.pin
    isRange := false }

/-- The digest branch: `none` is the early `return []` of source line 35,
`some upgrades` the content of `upgrades` when line 58 is reached. -/
def digestBranch (E : Env) (config : Config) : Option (List Upgrade) :=
  if digestActive config then
    match E.getDigest config.dockerRegistry config.depName config.currentTag with
    | Digest.str newDigest =>
      if newDigest = "" then none
      else if config.currentDigest ≠ some newDigest then some [digestUpgrade config newDigest]
      else some []
    | _ => none
  else some []

/-! ## Version policy filter (source lines 68-90) -/

/-- The number of dot-separated components, `v.split('.').length`. -/
def componentCount (v : String) : Nat :=
  (split v '.').length

/-- The predicate of the stability filter, source lines 77-85. -/
def stabilityTest (E : Env) (config : Config) (tagVersion : String) (version : String) : Bool :=
  isStable E version config.unstablePattern ||
    !config.ignoreUnstable ||
    (!isStable E tagVersion config.unstablePattern &&
      decide (E.getMajor version = E.getMajor tagVersion))

/-- The chain of filters of source lines 73-89 applied to a tag list. -/
def filterTags (E : Env) (config : Config) (currentTag : String) (allTags : List String) :
    List String :=
  let tagVersion := getVersion currentTag
  let tagSuffix := getSuffix currentTag
  allTags.filter (fun tag => decide (getSuffix tag = tagSuffix))
    |>.map getVersion
    |>.filter E.isValid
    |>.filter (stabilityTest E config tagVersion)
    |>.filter (fun p => decide (componentCount p = componentCount tagVersion))
    |>.filter (fun p => decide (E.compareVersions p tagVersion > 0))

/-- The list `versionList` after source line 90: empty when the registry
returns no tag list. -/
def versionList (E : Env) (config : Config) (currentTag : String) : List String :=
  match E.getTags config.dockerRegistry config.depName with
  | some allTags => filterTags E config currentTag allTags
  | none => []

/-! ## Upgrade bucketing (source lines 92-116) -/

/-- A property key of the object `versionUpgrades`: the strings `'latest'`
and `'major'`, or a major number (as a key, its decimal string). -/
inductive UpgradeKey where
  | latest
  | major
  | num (n : Nat)
deriving DecidableEq, Repr

/-- The object `versionUpgrades`: its own properties in insertion order. -/
abbrev VersionUpgrades := List (UpgradeKey × String)

/-- The read `versionUpgrades[key]`; `none` is `undefined`. -/
def lookup (o : VersionUpgrades) (key : UpgradeKey) : Option String :=
  match o with
  | [] => none
  | (k, v) :: rest => if k = key then some v else lookup rest key

/-- The write `versionUpgrades[key] = version`: an existing property keeps its
place, a new one is added last. -/
def assign (o : VersionUpgrades) (key : UpgradeKey) (version : String) : VersionUpgrades :=
  match o with
  | [] => [(key, version)]
  | (k, v) :: rest =>
    if k = key then (key, version) :: rest else (k, v) :: assign rest key version

/-- The value of `upgradeKey` computed at source lines 94-109. -/
def upgradeKey (E : Env) (config : Config) (currentMajor : Nat) (version : String) :
    UpgradeKey :=
  let newMajor := E.getMajor version
  let type := if newMajor > currentMajor then UpgradeType.major else UpgradeType.minor
  if !config.separateMajorMinor || truthy config.groupName || config.majorAutomerge then
    UpgradeKey.latest
  else if !config.separateMultipleMajor && decide (type = UpgradeType.major) then
    UpgradeKey.major
  else
    UpgradeKey.num newMajor

/-- One iteration of the loop of source lines 93-116. -/
def bucketStep (E : Env) (config : Config) (currentMajor : Nat) (versionUpgrades : VersionUpgrades)
    (version : String) : VersionUpgrades :=
  let key := upgradeKey E config currentMajor version
  if !truthy (lookup versionUpgrades key) ||
      (match lookup versionUpgrades key with
        | some cur => decide (E.compareVersions version cur > 0)
        | none => false) then
    assign versionUpgrades key version
  else versionUpgrades

/-- The loop of source lines 92-116, from the empty object. -/
def bucket (E : Env) (config : Config) (currentMajor : Nat) (versions : List String) :
    VersionUpgrades :=
  versions.foldl (bucketStep E config currentMajor) []

/-- The array index a key denotes, if it is one (a number below `2^32 - 1`). -/
def arrayIndex : UpgradeKey → Option Nat
  | UpgradeKey.num n => if n < 4294967295 then some n else none
  | _ => none

/-- The function `Object.keys`: array-index keys in ascending order, then
the other keys in insertion order. -/
def objectKeys (o : VersionUpgrades) : List UpgradeKey :=
  (((o.map Prod.fst).filterMap arrayIndex).insertionSort (· ≤ ·)).map UpgradeKey.num ++
    (o.map Prod.fst).filter (fun k => (arrayIndex k).isNone)

/-- The selected versions in the order the loop of source line 118 visits
them. -/
def winners (o : VersionUpgrades) : List String :=
  (objectKeys o).filterMap (lookup o)

/-! ## Tag record assembly (source lines 118-163) -/

/-- The value of `newTag` for a selected version, source lines 119-123. -/
def newTagOf (tagSuffix : String) (version : String) : String :=
  if tagSuffix ≠ "" then version ++ ("-" ++ tagSuffix) else version

/-- The body of the loop of source lines 118-163 for one selected version.
The test `newMajor > currentMajor` of line 153 compares the decimal string
of the major with a number; the string converts back to the major, so the
test is the numeric one. -/
def tagUpgrade (E : Env) (config : Config) (currentMajor : Nat) (tagSuffix : String)
    (version : String) : Except String Upgrade :=
  let newTag := newTagOf tagSuffix version
  let newMajor := toString (E.getMajor version)
  let newFrom := registryPrefix config ++ (config.depName ++ ":" ++ newTag)
  let type := if E.getMajor version > currentMajor then UpgradeType.major else UpgradeType.minor
  if digestActive config then
    let newDigest := E.getDigest config.dockerRegistry config.depName (some newTag)
    if newDigest.truthy then
      Except.ok
        { newTag := newTag
          newMajor := some newMajor
          newValue := newTag
          newDepTag := some (config.depName ++ ":" ++ newTag)
          newFrom := newFrom ++ ("@" ++ newDigest.text)
          newDigest := newDigest
          newDigestShort := none
          type := type
          isRange := false }
    else Except.error "registry-failure"
  else
    Except.ok
      { newTag := newTag
        newMajor := some newMajor
        newValue := newTag
        newDepTag := some (config.depName ++ ":" ++ newTag)
        newFrom := newFrom
        newDigest := Digest.undefined
        newDigestShort := none
        type := type
        isRange := false }

/-- The loop of source lines 118-163 over the selected versions: the records
in order, or the first failure. -/
def tagUpgrades (E : Env) (config : Config) (currentMajor : Nat) (tagSuffix : String) :
    List String → Except String (List Upgrade)
  | [] => Except.ok []
  | version :: rest =>
    match tagUpgrade E config currentMajor tagSuffix version with
    | Except.error e => Except.error e
    | Except.ok upgrade =>
      match tagUpgrades E config currentMajor tagSuffix rest with
      | Except.error e => Except.error e
      | Except.ok more => Except.ok (upgrade :: more)

/-! ## The resolver (source lines 10-166) -/

/-- The final filter of source line 165. -/
def dropNullDigest (upgrades : List Upgrade) : List Upgrade :=
  upgrades.filter (fun u => decide (u.newDigest ≠ Digest.null))

/-- The tag branch, source lines 59-163, entered with the records `upgrades`
of the digest branch and a truthy `currentTag`; the result is the value
returned by the function. -/
def tagBranch (E : Env) (config : Config) (upgrades : List Upgrade) (currentTag : String) :
    Except String (List Upgrade) :=
  let tagVersion := getVersion currentTag
  let tagSuffix := getSuffix currentTag
  if !E.isValid tagVersion then
    Except.ok (upgrades.map (fun upgrade => { upgrade with isRange := true }))
  else
    let currentMajor := E.getMajor tagVersion
    let versionUpgrades := bucket E config currentMajor (versionList E config currentTag)
    match tagUpgrades E config currentMajor tagSuffix (winners versionUpgrades) with
    | Except.error e => Except.error e
    | Except.ok records => Except.ok (dropNullDigest (upgrades ++ records))

/-- Source `getPackageUpdates`. -/
def getPackageUpdates (E : Env) (config : Config) : Except String (List Upgrade) :=
  match digestBranch E config with
  | none => Except.ok []
  | some upgrades =>
    match config.currentTag with
    | some currentTag =>
      if currentTag ≠ "" then tagBranch E config upgrades currentTag
      else Except.ok (dropNullDigest upgrades)
    | none => Except.ok (dropNullDigest upgrades)

/-! ## The resolver with the `SyntaxError` of an ill-formed pattern -/

/-- Whether a call of `isStable` throws: the pattern is truthy and the
`RegExp` constructor rejects it. -/
def patternRejected (E : Env) (unstablePattern : Option String) : Bool :=
  match unstablePattern with
  | some p => decide (p ≠ "") && !E.regExpAccepts p
  | none => false

/-- Source `isStable` (lines 168-172) with the exception of
`new RegExp(unstablePattern)`: a truthy pattern is compiled at every call, and
an ill-formed one throws a `SyntaxError`. -/
def isStableChecked (E : Env) (tag : String) (unstablePattern : Option String) :
    Except String Bool :=
  match unstablePattern with
  | some p =>
    if p ≠ "" then
      if E.regExpAccepts p then Except.ok (!E.regExpMatch p tag)
      else Except.error "SyntaxError"
    else Except.ok true
  | none => Except.ok true

/-- The predicate of the stability filter, source lines 78-85, as it is
evaluated: `isStable(version, unstablePattern)` is the first operand of `||`
and is called for every version. -/
def stabilityTestChecked (E : Env) (config : Config) (currentlyStable : Bool)
    (currentMajor : Nat) (version : String) : Except String Bool :=
  match isStableChecked E version config.unstablePattern with
  | Except.error e => Except.error e
  | Except.ok stable =>
    Except.ok (stable || !config.ignoreUnstable ||
      (!currentlyStable && decide (E.getMajor version = currentMajor)))

/-- The stability filter, source lines 77-85: the predicate is evaluated on
the versions in order and the first exception ends the filter. -/
def stabilityFilterChecked (E : Env) (config : Config) (currentlyStable : Bool)
    (currentMajor : Nat) : List String → Except String (List String)
  | [] => Except.ok []
  | version :: rest =>
    match stabilityTestChecked E config currentlyStable currentMajor version with
    | Except.error e => Except.error e
    | Except.ok keep =>
      match stabilityFilterChecked E config currentlyStable currentMajor rest with
      | Except.error e => Except.error e
      | Except.ok kept => Except.ok (if keep then version :: kept else kept)

/-- The list `versionList` after source line 90, for the value
`currentlyStable` of line 69, with the exceptions of the stability filter. -/
def versionListChecked (E : Env) (config : Config) (currentTag : String)
    (currentlyStable : Bool) : Except String (List String) :=
  let tagVersion := getVersion currentTag
  let tagSuffix := getSuffix currentTag
  match E.getTags config.dockerRegistry config.depName with
  | some allTags =>
    match stabilityFilterChecked E config currentlyStable (E.getMajor tagVersion)
        (((allTags.filter (fun tag => decide (getSuffix tag = tagSuffix))).map
          getVersion).filter E.isValid) with
    | Except.error e => Except.error e
    | Except.ok stable =>
      Except.ok ((stable.filter
        (fun p => decide (componentCount p = componentCount tagVersion))).filter
        (fun p => decide (E.compareVersions p tagVersion > 0)))
  | none => Except.ok []

/-- The tag branch, source lines 59-163, with the exceptions of `isStable`:
line 69 calls it on the current version before the registry is asked for its
tags. -/
def tagBranchChecked (E : Env) (config : Config) (upgrades : List Upgrade)
    (currentTag : String) : Except String (List Upgrade) :=
  let tagVersion := getVersion currentTag
  let tagSuffix := getSuffix currentTag
  if !E.isValid tagVersion then
    Except.ok (upgrades.map (fun upgrade => { upgrade with isRange := true }))
  else
    let currentMajor := E.getMajor tagVersion
    match isStableChecked E tagVersion config.unstablePattern with
    | Except.error e => Except.error e
    | Except.ok currentlyStable =>
      match versionListChecked E config currentTag currentlyStable with
      | Except.error e => Except.error e
      | Except.ok versions =>
        let versionUpgrades := bucket E config currentMajor versions
        match tagUpgrades E config currentMajor tagSuffix (winners versionUpgrades) with
        | Except.error e => Except.error e
        | Except.ok records => Except.ok (dropNullDigest (upgrades ++ records))

/-- Source `getPackageUpdates` with the exceptions of `isStable`: the
resolver for every pattern, well-formed or not. On a pattern the `RegExp`
constructor accepts it is `getPackageUpdates`. -/
def getPackageUpdatesChecked (E : Env) (config : Config) : Except String (List Upgrade) :=
  match digestBranch E config with
  | none => Except.ok []
  | some upgrades =>
    match config.currentTag with
    | some currentTag =>
      if currentTag ≠ "" then tagBranchChecked E config upgrades currentTag
      else Except.ok (dropNullDigest upgrades)
    | none => Except.ok (dropNullDigest upgrades)

/-! ## A concrete version scheme and registry for the scenarios -/

/-- The number written by a list of decimal digits. -/
def digitsValue (cs : List Char) : Nat :=
  cs.foldl (fun n c => 10 * n + (c.toNat - 48)) 0

/-- The numeric components of a dotted version. -/
def versionParts (v : String) : List Nat :=
  (splitChars '.' v.data).map digitsValue

/-- Three-way comparison of component lists, first difference decides. -/
def compareParts : List Nat → List Nat → Int
  | [], [] => 0
  | [], _ :: _ => -1
  | _ :: _, [] => 1
  | a :: as, b :: bs => if a < b then -1 else if b < a then 1 else compareParts as bs

/-- Whether the first list is an initial segment of the second. -/
def startsWith : List Char → List Char → Bool
  | [], _ => true
  | _ :: _, [] => false
  | p :: ps, c :: cs => decide (p = c) && startsWith ps cs

/-- Whether the first list occurs as a contiguous part of the second. -/
def occursIn (p : List Char) : List Char → Bool
  | [] => p.isEmpty
  | c :: cs => startsWith p (c :: cs) || occursIn p cs

/-- Modelled from the spec: the version-scheme capability of section 6
(`isValid`, `majorOf`, `compare`), whose implementations (the repository's
`versioning` module and the `compare-versions` package) are not part of the
source file, instantiated for dotted decimal versions; together with a
registry that publishes the tag list `tags` and answers digest queries by
`digestOf`. Of the patterns, the engine accepts those made of letters and
digits, which match where they occur in the subject, and rejects every
other one, as the `RegExp` constructor rejects `(`. -/
def dottedEnv (tags : List String) (digestOf : Option String → Digest) : Env where
  getMajor := fun v => (versionParts v).headD 0
  isValid := fun v => (splitChars '.' v.data).all (fun p => !p.isEmpty && p.all Char.isDigit)
  compareVersions := fun a b => compareParts (versionParts a) (versionParts b)
  regExpAccepts := fun p => p.data.all Char.isAlphanum
  regExpMatch := fun p s => occursIn p.data s.data
  getDigest := fun _ _ tag => digestOf tag
  getTags := fun _ _ => some tags

/-- A configuration with the given current tag and bucketing switches, no
registry host, no digest handling and no unstable pattern. -/
def plainConfig (currentTag : String) (separateMajorMinor separateMultipleMajor : Bool) :
    Config where
  dockerRegistry := none
  depName := "node"
  currentTag := some currentTag
  currentDigest := none
  unstablePattern := none
  ignoreUnstable := true
  pinDigests := false
  separateMajorMinor := separateMajorMinor
  separateMultipleMajor := separateMultipleMajor
  groupName := none
  majorAutomerge := false

/-- The collaborators with every tag whose suffix differs from that of
`currentTag` removed from the registry's tag list. -/
def withoutOtherSuffix (E : Env) (currentTag : String) : Env :=
  { E with
    getTags := fun registry name =>
      (E.getTags registry name).map
        (fun tags => tags.filter (fun tag => decide (getSuffix tag = getSuffix currentTag))) }

/-- The property keys of `versionUpgrades`, in insertion order. -/
def keysOf (o : VersionUpgrades) : List UpgradeKey :=
  o.map Prod.fst

/-- The loop invariant of the bucketing loop after the candidates `seen`:
keys are distinct, every seen candidate has its key present, and the version
stored under a key is a seen candidate of that key that no seen candidate of
the key exceeds (`a ≤ b` read as `compareVersions a b ≤ 0`). -/
def BucketInv (E : Env) (config : Config) (currentMajor : Nat) (seen : List String)
    (o : VersionUpgrades) : Prop :=
  (keysOf o).Nodup ∧
  (∀ u ∈ seen, upgradeKey E config currentMajor u ∈ keysOf o) ∧
  (∀ k w, (k, w) ∈ o → w ∈ seen ∧ upgradeKey E config currentMajor w = k ∧
    ∀ u ∈ seen, upgradeKey E config currentMajor u = k → E.compareVersions u w ≤ 0)

/-- The part of the loop invariant that holds for every comparison: keys are
distinct, every seen candidate has its key present, and the version stored
under a key is a seen candidate of that key. -/
def BucketShape (E : Env) (config : Config) (currentMajor : Nat) (seen : List String)
    (o : VersionUpgrades) : Prop :=
  (keysOf o).Nodup ∧
  (∀ u ∈ seen, upgradeKey E config currentMajor u ∈ keysOf o) ∧
  (∀ k w, (k, w) ∈ o → w ∈ seen ∧ upgradeKey E config currentMajor w = k)

/-- The condition under which the digest branch emits a record for the
registry digest `d`: digest handling is requested, the registry answers the
truthy digest `d` for the current tag, and `d` differs from `currentDigest`. -/
def DigestChanged (E : Env) (config : Config) (d : String) : Prop :=
  digestActive config = true ∧
    E.getDigest config.dockerRegistry config.depName config.currentTag = Digest.str d ∧
    d ≠ "" ∧ config.currentDigest ≠ some d

/-- The number a string of decimal digits converts to when a relational
comparison has a string and a number as operands (source line 153). -/
def toNumber (s : String) : Nat :=
  digitsValue s.data

/-- The tag branch with the final filter of source line 165 left out: the
records are returned as assembled. -/
def tagBranchUnfiltered (E : Env) (config : Config) (upgrades : List Upgrade)
    (currentTag : String) : Except String (List Upgrade) :=
  let tagVersion := getVersion currentTag
  let tagSuffix := getSuffix currentTag
  if !E.isValid tagVersion then
    Except.ok (upgrades.map (fun upgrade => { upgrade with isRange := true }))
  else
    let currentMajor := E.getMajor tagVersion
    let versionUpgrades := bucket E config currentMajor (versionList E config currentTag)
    match tagUpgrades E config currentMajor tagSuffix (winners versionUpgrades) with
    | Except.error e => Except.error e
    | Except.ok records => Except.ok (upgrades ++ records)

/-- The resolver with the final filter of source line 165 left out
(`return upgrades`), to be compared with `getPackageUpdates`. -/
def getPackageUpdatesUnfiltered (E : Env) (config : Config) : Except String (List Upgrade) :=
  match digestBranch E config with
  | none => Except.ok []
  | some upgrades =>
    match config.currentTag with
    | some currentTag =>
      if currentTag ≠ "" then tagBranchUnfiltered E config upgrades currentTag
      else Except.ok upgrades
    | none => Except.ok upgrades

/-! ## Tag parser: lemmas -/

theorem findIndex_eq_none (c : Char) (l : List Char) : findIndex c l = none ↔ c ∉ l := by
  induction l with
  | nil => simp [findIndex]
  | cons x xs ih =>
    by_cases hx : x = c
    · simp [findIndex, hx]
    · have hx2 : ¬ c = x := fun h => hx h.symm
      simp [findIndex, hx, hx2, ih]

theorem findIndex_append (c : Char) (pre post : List Char) (h : c ∉ pre) :
    findIndex c (pre ++ c :: post) = some pre.length := by
  induction pre with
  | nil => simp [findIndex]
  | cons x xs ih =>
    have hx : ¬ x = c := fun e => h (by simp [e])
    have hxs : c ∉ xs := fun e => h (by simp [e])
    simp [findIndex, hx, ih hxs]

theorem findIndex_some_split (c : Char) (l : List Char) (i : Nat) (h : findIndex c l = some i) :
    c ∉ l.take i ∧ l = l.take i ++ c :: l.drop (i + 1) := by
  induction l generalizing i with
  | nil => simp [findIndex] at h
  | cons x xs ih =>
    by_cases hx : x = c
    · simp [findIndex, hx] at h
      subst h
      simp [hx]
    · simp only [findIndex, hx, if_false, Option.map_eq_some'] at h
      obtain ⟨j, hj, rfl⟩ := h
      obtain ⟨h1, h2⟩ := ih j hj
      have hx2 : ¬ c = x := fun e => hx e.symm
      refine ⟨by simp [hx2, h1], ?_⟩
      simp only [List.take_succ_cons, List.drop_succ_cons, List.cons_append]
      rw [← h2]

theorem indexOf_no_dash (t : String) (h : '-' ∉ t.data) : indexOf t '-' = -1 := by
  simp [indexOf, (findIndex_eq_none '-' t.data).2 h]

theorem indexOf_split (pre post : List Char) (h : '-' ∉ pre) :
    indexOf (String.mk (pre ++ '-' :: post)) '-' = (pre.length : Int) := by
  simp [indexOf, findIndex_append '-' pre post h]

theorem parse_no_dash (t : String) (h : '-' ∉ t.data) :
    getVersion t = t ∧ getSuffix t = "" := by
  simp [getVersion, getSuffix, indexOf_no_dash t h]

theorem parse_leading_dash (rest : List Char) :
    getVersion (String.mk ('-' :: rest)) = String.mk ('-' :: rest) ∧
      getSuffix (String.mk ('-' :: rest)) = "" := by
  simp [getVersion, getSuffix, indexOf, findIndex]

theorem parse_split (pre post : List Char) (hne : pre ≠ []) (h : '-' ∉ pre) :
    getVersion (String.mk (pre ++ '-' :: post)) = String.mk pre ∧
      getSuffix (String.mk (pre ++ '-' :: post)) = String.mk post := by
  have hlen : 0 < pre.length := List.length_pos.2 hne
  have hpos : (0 : Int) < (pre.length : Int) := by exact_mod_cast hlen
  have h1 : ((pre.length : Int) + 1).toNat = pre.length + 1 := by omega
  simp [getVersion, getSuffix, indexOf_split pre post h, hpos, h1]

/-- Every tag has one of three shapes: no dash, a leading dash, or a
non-empty dash-free part followed by a dash. -/
theorem tag_shape (t : String) :
    '-' ∉ t.data ∨ (∃ rest, t = String.mk ('-' :: rest)) ∨
      ∃ pre post, pre ≠ [] ∧ '-' ∉ pre ∧ t = String.mk (pre ++ '-' :: post) := by
  cases hf : findIndex '-' t.data with
  | none => exact Or.inl ((findIndex_eq_none _ _).1 hf)
  | some i =>
    obtain ⟨h1, h2⟩ := findIndex_some_split _ _ _ hf
    by_cases hi : i = 0
    · subst hi
      right; left
      refine ⟨t.data.drop 1, ?_⟩
      apply String.ext
      simpa using h2
    · right; right
      refine ⟨t.data.take i, t.data.drop (i + 1), ?_, h1, String.ext h2⟩
      intro hnil
      rw [hnil] at h2
      rw [h2] at hf
      simp [findIndex] at hf
      exact hi hf.symm

theorem getElem?_split (c : Char) (l : List Char) (i : Nat) (h : l[i]? = some c) :
    l = l.take i ++ c :: l.drop (i + 1) := by
  induction l generalizing i with
  | nil => simp at h
  | cons x xs ih =>
    cases i with
    | zero => simp at h; simp [h]
    | succ j =>
      simp at h
      simp only [List.take_succ_cons, List.drop_succ_cons, List.cons_append]
      rw [← ih j h]

theorem mk_append_dash (pre post : List Char) :
    String.mk pre ++ "-" ++ String.mk post = String.mk (pre ++ '-' :: post) := by
  apply String.ext
  simp [String.data_append]

theorem rebuild_split (pre post : List Char) (hne : pre ≠ []) (h : '-' ∉ pre) :
    rebuild (String.mk (pre ++ '-' :: post)) =
      if post = [] then String.mk pre else String.mk (pre ++ '-' :: post) := by
  obtain ⟨hv, hs⟩ := parse_split pre post hne h
  unfold rebuild
  rw [hv, hs]
  by_cases hp : post = []
  · subst hp; simp
  · have : ¬ String.mk post = "" := fun e => hp (by simpa using congrArg String.data e)
    simp [hp, this, mk_append_dash]

/-- C1 (counterexample): the tag `1.0-` parses to version `1.0` and an empty
suffix, so the rebuilt string is `1.0`, not the tag. -/
theorem rebuild_trailing_dash_counterexample :
    getVersion "1.0-" = "1.0" ∧ getSuffix "1.0-" = "" ∧ rebuild "1.0-" = "1.0" ∧
      rebuild "1.0-" ≠ "1.0-" := by
  decide

/-- C1 (amended): the string rebuilt from the parsed version and suffix
equals the tag exactly when the first `-` of the tag is not both at an index
greater than 0 and the last character of the tag. -/
theorem rebuild_eq_iff (t : String) :
    rebuild t = t ↔ ¬ (0 < indexOf t '-' ∧ indexOf t '-' + 1 = (t.data.length : Int)) := by
  rcases tag_shape t with h | ⟨rest, rfl⟩ | ⟨pre, post, hne, hd, rfl⟩
  · obtain ⟨hv, hs⟩ := parse_no_dash t h
    simp [rebuild, hv, hs, indexOf_no_dash t h]
  · obtain ⟨hv, hs⟩ := parse_leading_dash rest
    have h0 : indexOf (String.mk ('-' :: rest)) '-' = 0 := by simp [indexOf, findIndex]
    simp [rebuild, hv, hs, h0]
  · have hlen : 0 < pre.length := List.length_pos.2 hne
    rw [rebuild_split pre post hne hd, indexOf_split pre post hd]
    by_cases hp : post = []
    · subst hp
      have hneq : ¬ String.mk pre = String.mk (pre ++ ['-']) := by
        intro e
        have := congrArg (fun s => s.data.length) e
        simp at this
      simp [hlen, hneq]
    · simp [hp]

/-- C2: the tag parser. Without a dash the version is the tag and the suffix
is empty; with the first dash at an index `i > 0` the version is the first
`i` characters and the suffix everything after index `i`; the empty tag and a
tag starting with a dash parse to the tag itself and an empty suffix. -/
theorem getVersion_getSuffix_spec (t : String) :
    ('-' ∉ t.data → getVersion t = t ∧ getSuffix t = "") ∧
    (∀ i : Nat, 0 < i → t.data[i]? = some '-' → '-' ∉ t.data.take i →
      getVersion t = String.mk (t.data.take i) ∧
        getSuffix t = String.mk (t.data.drop (i + 1))) ∧
    (getVersion "" = "" ∧ getSuffix "" = "") ∧
    (t.data.head? = some '-' → getVersion t = t ∧ getSuffix t = "") := by
  refine ⟨parse_no_dash t, ?_, by decide, ?_⟩
  · intro i hi hget hnot
    have hsplit := getElem?_split '-' t.data i hget
    have hne : t.data.take i ≠ [] := by
      intro hnil
      have hlt : i < t.data.length := by
        by_contra hge
        rw [List.getElem?_eq_none (by omega)] at hget
        exact absurd hget (by simp)
      have := congrArg List.length hnil
      simp only [List.length_take, List.length_nil] at this
      omega
    have ht : t = String.mk (t.data.take i ++ '-' :: t.data.drop (i + 1)) := String.ext hsplit
    have := parse_split (t.data.take i) (t.data.drop (i + 1)) hne hnot
    rw [← ht] at this
    exact this
  · intro hhead
    cases t with
    | mk l =>
      cases l with
      | nil => simp at hhead
      | cons x xs =>
        simp at hhead
        subst hhead
        exact parse_leading_dash xs

/-- C2 (witness): the tag `1.0.0-alpine` has its first dash at index 5. -/
theorem getVersion_getSuffix_spec_witness :
    getVersion "1.0.0-alpine" = "1.0.0" ∧ getSuffix "1.0.0-alpine" = "alpine" ∧
      getVersion "-rc" = "-rc" ∧ getSuffix "-rc" = "" ∧
      getVersion "latest" = "latest" ∧ getSuffix "latest" = "" :=
  ⟨((getVersion_getSuffix_spec "1.0.0-alpine").2.1 5 (by decide) (by decide) (by decide)).1,
   ((getVersion_getSuffix_spec "1.0.0-alpine").2.1 5 (by decide) (by decide) (by decide)).2,
   ((getVersion_getSuffix_spec "-rc").2.2.2 (by decide)).1,
   ((getVersion_getSuffix_spec "-rc").2.2.2 (by decide)).2,
   ((getVersion_getSuffix_spec "latest").1 (by decide)).1,
   ((getVersion_getSuffix_spec "latest").1 (by decide)).2⟩

/-! ## Bucketing: lemmas -/

theorem lookup_eq_none_iff (o : VersionUpgrades) (k : UpgradeKey) :
    lookup o k = none ↔ k ∉ keysOf o := by
  induction o with
  | nil => simp [lookup, keysOf]
  | cons e rest ih =>
    obtain ⟨k1, v1⟩ := e
    by_cases hk : k1 = k
    · simp [lookup, keysOf, hk]
    · have hk2 : ¬ k = k1 := fun h => hk h.symm
      simp only [keysOf] at ih
      simp [lookup, keysOf, hk, hk2, ih]

theorem mem_of_lookup (o : VersionUpgrades) (k : UpgradeKey) (w : String)
    (h : lookup o k = some w) : (k, w) ∈ o := by
  induction o with
  | nil => simp [lookup] at h
  | cons e rest ih =>
    obtain ⟨k1, v1⟩ := e
    by_cases hk : k1 = k
    · simp [lookup, hk] at h
      simp [hk, h]
    · simp [lookup, hk] at h
      exact List.mem_cons_of_mem _ (ih h)

theorem mem_keysOf {o : VersionUpgrades} {k : UpgradeKey} {w : String} (h : (k, w) ∈ o) :
    k ∈ keysOf o :=
  List.mem_map.2 ⟨(k, w), h, rfl⟩

theorem lookup_of_mem (o : VersionUpgrades) (k : UpgradeKey) (w : String)
    (hnd : (keysOf o).Nodup) (h : (k, w) ∈ o) : lookup o k = some w := by
  induction o with
  | nil => simp at h
  | cons e rest ih =>
    obtain ⟨k1, v1⟩ := e
    simp only [keysOf, List.map_cons, List.nodup_cons] at hnd
    rcases List.mem_cons.1 h with heq | hmem
    · cases heq
      simp [lookup]
    · have hk : ¬ k1 = k := by
        intro e
        subst e
        exact hnd.1 (mem_keysOf hmem)
      simp only [lookup, hk, if_false]
      exact ih hnd.2 hmem

theorem keysOf_assign (o : VersionUpgrades) (k : UpgradeKey) (v : String) :
    keysOf (assign o k v) = if k ∈ keysOf o then keysOf o else keysOf o ++ [k] := by
  induction o with
  | nil => simp [assign, keysOf]
  | cons e rest ih =>
    obtain ⟨k1, v1⟩ := e
    by_cases hk : k1 = k
    · simp [assign, keysOf, hk]
    · have hk2 : ¬ k = k1 := fun h => hk h.symm
      simp only [keysOf] at ih
      simp only [assign, hk, if_false, keysOf, List.map_cons, ih, List.mem_cons, hk2, false_or]
      split <;> simp

theorem nodup_keysOf_assign (o : VersionUpgrades) (k : UpgradeKey) (v : String)
    (hnd : (keysOf o).Nodup) : (keysOf (assign o k v)).Nodup := by
  rw [keysOf_assign]
  split
  · exact hnd
  · rename_i hk
    exact List.Nodup.append hnd (List.nodup_singleton k) (by simpa using hk)

theorem mem_assign_self (o : VersionUpgrades) (k : UpgradeKey) (v : String) :
    (k, v) ∈ assign o k v := by
  induction o with
  | nil => simp [assign]
  | cons e rest ih =>
    obtain ⟨k1, v1⟩ := e
    by_cases hk : k1 = k
    · simp [assign, hk]
    · simp only [assign, hk, if_false]
      exact List.mem_cons_of_mem _ ih

theorem mem_assign (o : VersionUpgrades) (k : UpgradeKey) (v : String)
    (hnd : (keysOf o).Nodup) (k1 : UpgradeKey) (w1 : String)
    (h : (k1, w1) ∈ assign o k v) : (k1 = k ∧ w1 = v) ∨ (k1 ≠ k ∧ (k1, w1) ∈ o) := by
  induction o with
  | nil => simp [assign] at h; exact Or.inl h
  | cons e rest ih =>
    obtain ⟨k2, v2⟩ := e
    simp only [keysOf, List.map_cons, List.nodup_cons] at hnd
    by_cases hk : k2 = k
    · subst hk
      simp only [assign, if_true] at h
      rcases List.mem_cons.1 h with heq | hmem
      · cases heq; exact Or.inl ⟨rfl, rfl⟩
      · right
        refine ⟨?_, List.mem_cons_of_mem _ hmem⟩
        intro e
        subst e
        exact hnd.1 (mem_keysOf hmem)
    · simp only [assign, hk, if_false] at h
      rcases List.mem_cons.1 h with heq | hmem
      · cases heq
        exact Or.inr ⟨hk, List.mem_cons_self _ _⟩
      · rcases ih hnd.2 hmem with h1 | ⟨h1, h2⟩
        · exact Or.inl h1
        · exact Or.inr ⟨h1, List.mem_cons_of_mem _ h2⟩

theorem mem_keysOf_assign (o : VersionUpgrades) (k : UpgradeKey) (v : String) (k1 : UpgradeKey)
    (h : k1 ∈ keysOf o ∨ k1 = k) : k1 ∈ keysOf (assign o k v) := by
  rw [keysOf_assign]
  split
  · rcases h with h | h
    · exact h
    · subst h; assumption
  · rcases h with h | h
    · exact List.mem_append_left _ h
    · subst h; simp

theorem bucketStep_none (E : Env) (config : Config) (cm : Nat) (o : VersionUpgrades) (v : String)
    (h : lookup o (upgradeKey E config cm v) = none) :
    bucketStep E config cm o v = assign o (upgradeKey E config cm v) v := by
  simp [bucketStep, h, truthy]

theorem bucketStep_some (E : Env) (config : Config) (cm : Nat) (o : VersionUpgrades) (v cur : String)
    (h : lookup o (upgradeKey E config cm v) = some cur) (hcur : cur ≠ "") :
    bucketStep E config cm o v =
      if E.compareVersions v cur > 0 then assign o (upgradeKey E config cm v) v else o := by
  simp [bucketStep, h, truthy, hcur]

theorem bucketInv_step (E : Env) (config : Config) (cm : Nat)
    (htotal : ∀ a b, E.compareVersions a b ≤ 0 ∨ E.compareVersions b a ≤ 0)
    (htrans : ∀ a b c, E.compareVersions a b ≤ 0 → E.compareVersions b c ≤ 0 →
      E.compareVersions a c ≤ 0)
    (seen : List String) (o : VersionUpgrades) (v : String)
    (hne : ∀ u ∈ seen, u ≠ "") (hinv : BucketInv E config cm seen o) :
    BucketInv E config cm (seen ++ [v]) (bucketStep E config cm o v) := by
  obtain ⟨hnd, hkeys, hent⟩ := hinv
  have hrefl : E.compareVersions v v ≤ 0 := by rcases htotal v v with h | h <;> exact h
  -- the invariant after the write `versionUpgrades[key] = v`
  have hassign : (∀ u ∈ seen, upgradeKey E config cm u = upgradeKey E config cm v →
      E.compareVersions u v ≤ 0) →
      BucketInv E config cm (seen ++ [v]) (assign o (upgradeKey E config cm v) v) := by
    intro hmax
    refine ⟨nodup_keysOf_assign o _ v hnd, ?_, ?_⟩
    · intro u hu
      rcases List.mem_append.1 hu with hu | hu
      · exact mem_keysOf_assign o _ v _ (Or.inl (hkeys u hu))
      · have : u = v := by simpa using hu
        subst this
        exact mem_keysOf_assign o _ u _ (Or.inr rfl)
    · intro k w hkw
      rcases mem_assign o _ v hnd k w hkw with ⟨hk, hw⟩ | ⟨hk, hmem⟩
      · subst hk; subst hw
        refine ⟨by simp, rfl, ?_⟩
        intro u hu hku
        rcases List.mem_append.1 hu with hu | hu
        · exact hmax u hu hku
        · have : u = w := by simpa using hu
          subst this
          exact hrefl
      · obtain ⟨h1, h2, h3⟩ := hent k w hmem
        refine ⟨List.mem_append_left _ h1, h2, ?_⟩
        intro u hu hku
        rcases List.mem_append.1 hu with hu | hu
        · exact h3 u hu hku
        · have : u = v := by simpa using hu
          subst this
          exact absurd hku.symm hk
  cases hl : lookup o (upgradeKey E config cm v) with
  | none =>
    rw [bucketStep_none E config cm o v hl]
    apply hassign
    intro u hu hku
    have := hkeys u hu
    rw [hku] at this
    exact absurd this ((lookup_eq_none_iff o _).1 hl)
  | some cur =>
    have hmem := mem_of_lookup o _ cur hl
    obtain ⟨hcs, hck, hcmax⟩ := hent _ cur hmem
    rw [bucketStep_some E config cm o v cur hl (hne cur hcs)]
    by_cases hgt : E.compareVersions v cur > 0
    · rw [if_pos hgt]
      apply hassign
      intro u hu hku
      have h1 : E.compareVersions u cur ≤ 0 := hcmax u hu hku
      have h2 : E.compareVersions cur v ≤ 0 := by
        rcases htotal cur v with h | h
        · exact h
        · omega
      exact htrans u cur v h1 h2
    · rw [if_neg hgt]
      refine ⟨hnd, ?_, ?_⟩
      · intro u hu
        rcases List.mem_append.1 hu with hu | hu
        · exact hkeys u hu
        · have : u = v := by simpa using hu
          subst this
          exact mem_keysOf hmem
      · intro k w hkw
        obtain ⟨h1, h2, h3⟩ := hent k w hkw
        refine ⟨List.mem_append_left _ h1, h2, ?_⟩
        intro u hu hku
        rcases List.mem_append.1 hu with hu | hu
        · exact h3 u hu hku
        · have hu2 : u = v := by simpa using hu
          subst hu2
          rw [hku] at hl
          have hw : lookup o k = some w := lookup_of_mem o k w hnd hkw
          rw [hl] at hw
          cases hw
          omega

theorem bucketInv_foldl (E : Env) (config : Config) (cm : Nat)
    (htotal : ∀ a b, E.compareVersions a b ≤ 0 ∨ E.compareVersions b a ≤ 0)
    (htrans : ∀ a b c, E.compareVersions a b ≤ 0 → E.compareVersions b c ≤ 0 →
      E.compareVersions a c ≤ 0)
    (versions seen : List String) (o : VersionUpgrades)
    (hne : ∀ u ∈ seen ++ versions, u ≠ "") (hinv : BucketInv E config cm seen o) :
    BucketInv E config cm (seen ++ versions)
      (versions.foldl (bucketStep E config cm) o) := by
  induction versions generalizing seen o with
  | nil => simpa using hinv
  | cons v rest ih =>
    have hstep := bucketInv_step E config cm htotal htrans seen o v
      (fun u hu => hne u (List.mem_append_left _ hu)) hinv
    have := ih (seen ++ [v]) (bucketStep E config cm o v) (by simpa using hne) hstep
    simpa using this

/-- C3: for a list of non-empty candidate versions and a comparison that is
a total preorder (`a ≤ b` read as `compareVersions a b ≤ 0`, total and
transitive), the object built by the bucketing loop has pairwise distinct
keys, and the version stored under a key is a candidate mapped to that key
which every candidate mapped to the key is less than or equal to (and, when
the comparison is sign-consistent, which compares `≥ 0` against each); and
the key of every candidate is present in the object, holding a candidate of
that key that the candidate is less than or equal to. -/
theorem bucket_keeps_maximum (E : Env) (config : Config) (currentMajor : Nat)
    (versions : List String) (hne : ∀ v ∈ versions, v ≠ "")
    (htotal : ∀ a b, E.compareVersions a b ≤ 0 ∨ E.compareVersions b a ≤ 0)
    (htrans : ∀ a b c, E.compareVersions a b ≤ 0 → E.compareVersions b c ≤ 0 →
      E.compareVersions a c ≤ 0) :
    (keysOf (bucket E config currentMajor versions)).Nodup ∧
    (∀ k w1 w2, lookup (bucket E config currentMajor versions) k = some w1 →
      (k, w2) ∈ bucket E config currentMajor versions → w2 = w1) ∧
    (∀ k w, (k, w) ∈ bucket E config currentMajor versions →
      w ∈ versions ∧ upgradeKey E config currentMajor w = k ∧
      ∀ u ∈ versions, upgradeKey E config currentMajor u = k →
        E.compareVersions u w ≤ 0 ∧
        ((∀ a b, E.compareVersions a b ≤ 0 → 0 ≤ E.compareVersions b a) →
          0 ≤ E.compareVersions w u)) ∧
    (∀ u ∈ versions, ∃ w,
      lookup (bucket E config currentMajor versions) (upgradeKey E config currentMajor u) =
        some w ∧
      w ∈ versions ∧
      upgradeKey E config currentMajor w = upgradeKey E config currentMajor u ∧
      E.compareVersions u w ≤ 0) := by
  have hinv := bucketInv_foldl E config currentMajor htotal htrans versions [] []
    (by simpa using hne) ⟨by simp [keysOf], by simp, by simp⟩
  simp only [List.nil_append] at hinv
  refine ⟨hinv.1, ?_, ?_, ?_⟩
  case refine_2 =>
    intro k w hkw
    obtain ⟨h1, h2, h3⟩ := hinv.2.2 k w hkw
    exact ⟨h1, h2, fun u hu hk => ⟨h3 u hu hk, fun hs => hs _ _ (h3 u hu hk)⟩⟩
  case refine_3 =>
    intro u hu
    have hkey := hinv.2.1 u hu
    cases hl : lookup (List.foldl (bucketStep E config currentMajor) [] versions)
        (upgradeKey E config currentMajor u) with
    | none => exact absurd hkey ((lookup_eq_none_iff _ _).1 hl)
    | some w =>
      obtain ⟨h1, h2, h3⟩ := hinv.2.2 _ w (mem_of_lookup _ _ w hl)
      exact ⟨w, hl, h1, h2, h3 u hu rfl⟩
  intro k w1 w2 h1 h2
  have := lookup_of_mem _ k w2 hinv.1 h2
  unfold bucket at h1 this
  rw [h1] at this
  cases this
  rfl

theorem compareParts_total (a b : List Nat) : compareParts a b ≤ 0 ∨ compareParts b a ≤ 0 := by
  induction a generalizing b with
  | nil => cases b <;> simp [compareParts]
  | cons x xs ih =>
    cases b with
    | nil => simp [compareParts]
    | cons y ys =>
      simp only [compareParts]
      rcases Nat.lt_trichotomy x y with h | h | h
      · simp [h]
      · subst h
        simpa using ih ys
      · have h2 : ¬ x < y := by omega
        simp [h, h2]

theorem compareParts_trans (a b c : List Nat) (h1 : compareParts a b ≤ 0)
    (h2 : compareParts b c ≤ 0) : compareParts a c ≤ 0 := by
  induction a generalizing b c with
  | nil => cases c <;> simp [compareParts]
  | cons x xs ih =>
    cases b with
    | nil => simp [compareParts] at h1
    | cons y ys =>
      cases c with
      | nil => simp [compareParts] at h2
      | cons z zs =>
        simp only [compareParts] at h1 h2 ⊢
        by_cases hxy : x < y
        · have hxz : x < z := by
            by_cases hyz : y < z
            · omega
            · by_cases hzy : z < y
              · simp [hyz, hzy] at h2
              · omega
          simp [hxz]
        · by_cases hyx : y < x
          · simp [hxy, hyx] at h1
          · have hxy2 : x = y := by omega
            subst hxy2
            simp only [hxy, if_false] at h1
            by_cases hxz : x < z
            · simp [hxz]
            · by_cases hzx : z < x
              · simp [hxz, hzx] at h2
              · simp only [hxz, hzx, if_false] at h2 ⊢
                exact ih ys zs h1 h2

/-- C3 (witness): the dotted scheme on the candidates `1.3.0`, `2.0.0`,
`1.4.0` with one bucket per major: the key of `1.3.0` is present and holds a
version that `1.3.0` is less than or equal to. -/
theorem bucket_keeps_maximum_witness :
    (keysOf (bucket (dottedEnv [] (fun _ => Digest.undefined)) (plainConfig "1.2.0" true true) 1
      ["1.3.0", "2.0.0", "1.4.0"])).Nodup ∧
    (UpgradeKey.num 1, "1.4.0") ∈ bucket (dottedEnv [] (fun _ => Digest.undefined))
      (plainConfig "1.2.0" true true) 1 ["1.3.0", "2.0.0", "1.4.0"] ∧
    (dottedEnv [] (fun _ => Digest.undefined)).compareVersions "1.3.0" "1.4.0" ≤ 0 ∧
    (∃ w, lookup (bucket (dottedEnv [] (fun _ => Digest.undefined))
        (plainConfig "1.2.0" true true) 1 ["1.3.0", "2.0.0", "1.4.0"])
        (upgradeKey (dottedEnv [] (fun _ => Digest.undefined)) (plainConfig "1.2.0" true true)
          1 "1.3.0") = some w ∧
      (dottedEnv [] (fun _ => Digest.undefined)).compareVersions "1.3.0" w ≤ 0) := by
  have h := bucket_keeps_maximum (dottedEnv [] (fun _ => Digest.undefined))
    (plainConfig "1.2.0" true true) 1 ["1.3.0", "2.0.0", "1.4.0"] (by decide)
    (fun a b => compareParts_total _ _) (fun a b c => compareParts_trans _ _ _)
  have hmem : (UpgradeKey.num 1, "1.4.0") ∈ bucket (dottedEnv [] (fun _ => Digest.undefined))
      (plainConfig "1.2.0" true true) 1 ["1.3.0", "2.0.0", "1.4.0"] := by decide
  obtain ⟨w, hw, _, _, hle⟩ := h.2.2.2 "1.3.0" (by decide)
  exact ⟨h.1, hmem, ((h.2.2.1 _ _ hmem).2.2 "1.3.0" (by decide) (by decide)).1, w, hw, hle⟩

/-! ## Bucket keys -/

theorem upgradeKey_single_stream (E : Env) (config : Config) (currentMajor : Nat) (v : String)
    (h : config.separateMajorMinor = false ∨ truthy config.groupName = true ∨
      config.majorAutomerge = true) :
    upgradeKey E config currentMajor v = UpgradeKey.latest := by
  unfold upgradeKey
  rcases h with h | h | h <;> simp [h]

/-- C4: the bucket key of a candidate is `latest` when `separateMajorMinor`
is false or `groupName` is set (a non-empty string) or `major.automerge` is
true; otherwise `major` when `separateMultipleMajor` is false and the
candidate's major is greater than the current major; otherwise the
candidate's major. -/
theorem upgradeKey_spec (E : Env) (config : Config) (currentMajor : Nat) (v : String) :
    upgradeKey E config currentMajor v =
      if config.separateMajorMinor = false ∨ truthy config.groupName = true ∨
          config.majorAutomerge = true then UpgradeKey.latest
      else if config.separateMultipleMajor = false ∧ currentMajor < E.getMajor v then
        UpgradeKey.major
      else UpgradeKey.num (E.getMajor v) := by
  unfold upgradeKey
  cases config.separateMajorMinor <;> cases truthy config.groupName <;>
    cases config.majorAutomerge <;> cases config.separateMultipleMajor <;>
    by_cases h : currentMajor < E.getMajor v <;> simp [h]

/-- C5 (counterexample): with one bucket per major, the candidates `1.3.0`
and `2.0.0` get the keys `1` and `2`; with majors collapsed they get `1` and
`major`. -/
theorem upgradeKey_candidate_counterexample :
    upgradeKey (dottedEnv [] (fun _ => Digest.undefined)) (plainConfig "1.2.0" true true) 1
      "1.3.0" = UpgradeKey.num 1 ∧
    upgradeKey (dottedEnv [] (fun _ => Digest.undefined)) (plainConfig "1.2.0" true true) 1
      "2.0.0" = UpgradeKey.num 2 ∧
    upgradeKey (dottedEnv [] (fun _ => Digest.undefined)) (plainConfig "1.2.0" true true) 1
      "1.3.0" ≠
    upgradeKey (dottedEnv [] (fun _ => Digest.undefined)) (plainConfig "1.2.0" true true) 1
      "2.0.0" ∧
    upgradeKey (dottedEnv [] (fun _ => Digest.undefined)) (plainConfig "1.2.0" true false) 1
      "1.3.0" ≠
    upgradeKey (dottedEnv [] (fun _ => Digest.undefined)) (plainConfig "1.2.0" true false) 1
      "2.0.0" := by
  decide

/-- C5 (amended): the bucket key depends on the candidate only through its
major version: two candidates with the same major get the same key, and when
`separateMajorMinor` is false or `groupName` is set or `major.automerge` is
true any two candidates get the same key. -/
theorem upgradeKey_same_major (E : Env) (config : Config) (currentMajor : Nat)
    (v1 v2 : String) :
    (E.getMajor v1 = E.getMajor v2 →
      upgradeKey E config currentMajor v1 = upgradeKey E config currentMajor v2) ∧
    (config.separateMajorMinor = false ∨ truthy config.groupName = true ∨
        config.majorAutomerge = true →
      upgradeKey E config currentMajor v1 = upgradeKey E config currentMajor v2) := by
  constructor
  · intro h
    simp only [upgradeKey, h]
  · intro h
    rw [upgradeKey_single_stream E config currentMajor v1 h,
      upgradeKey_single_stream E config currentMajor v2 h]

/-- C5 (witness): two candidates of major 1 under the per-major policy, and
two candidates of different majors under the single-stream policy. -/
theorem upgradeKey_same_major_witness :
    upgradeKey (dottedEnv [] (fun _ => Digest.undefined)) (plainConfig "1.2.0" true true) 1
      "1.3.0" =
    upgradeKey (dottedEnv [] (fun _ => Digest.undefined)) (plainConfig "1.2.0" true true) 1
      "1.4.0" ∧
    upgradeKey (dottedEnv [] (fun _ => Digest.undefined)) (plainConfig "1.2.0" false true) 1
      "1.3.0" =
    upgradeKey (dottedEnv [] (fun _ => Digest.undefined)) (plainConfig "1.2.0" false true) 1
      "2.0.0" :=
  ⟨(upgradeKey_same_major (dottedEnv [] (fun _ => Digest.undefined))
      (plainConfig "1.2.0" true true) 1 "1.3.0" "1.4.0").1 (by decide),
   (upgradeKey_same_major (dottedEnv [] (fun _ => Digest.undefined))
      (plainConfig "1.2.0" false true) 1 "1.3.0" "2.0.0").2 (Or.inl rfl)⟩

/-! ## Stability filter -/

theorem stabilityTest_of_not_ignoreUnstable (E : Env) (config : Config) (tagVersion v : String)
    (h : config.ignoreUnstable = false) : stabilityTest E config tagVersion v = true := by
  simp [stabilityTest, h]

/-! ## The shape of the result -/

theorem mem_filterTags (E : Env) (config : Config) (currentTag : String) (allTags : List String)
    (v : String) (h : v ∈ filterTags E config currentTag allTags) :
    (∃ tag ∈ allTags, getSuffix tag = getSuffix currentTag ∧ getVersion tag = v) ∧
    E.isValid v = true ∧
    stabilityTest E config (getVersion currentTag) v = true ∧
    componentCount v = componentCount (getVersion currentTag) ∧
    E.compareVersions v (getVersion currentTag) > 0 := by
  simp only [filterTags, List.mem_filter, List.mem_map, decide_eq_true_eq] at h
  obtain ⟨⟨⟨⟨⟨tag, ⟨htag, hsuf⟩, hv⟩, hvalid⟩, hstable⟩, hcount⟩, hcmp⟩ := h
  exact ⟨⟨tag, htag, hsuf, hv⟩, hvalid, hstable, hcount, hcmp⟩

theorem mem_versionList (E : Env) (config : Config) (currentTag : String)
    (v : String) (h : v ∈ versionList E config currentTag) :
    (∃ allTags tag, E.getTags config.dockerRegistry config.depName = some allTags ∧
      tag ∈ allTags ∧ getSuffix tag = getSuffix currentTag ∧ getVersion tag = v) ∧
    E.isValid v = true ∧
    stabilityTest E config (getVersion currentTag) v = true ∧
    componentCount v = componentCount (getVersion currentTag) ∧
    E.compareVersions v (getVersion currentTag) > 0 := by
  unfold versionList at h
  cases hts : E.getTags config.dockerRegistry config.depName with
  | none => simp [hts] at h
  | some allTags =>
    simp only [hts] at h
    obtain ⟨⟨tag, h1, h2, h3⟩, h4⟩ := mem_filterTags E config currentTag allTags v h
    exact ⟨⟨allTags, tag, rfl, h1, h2, h3⟩, h4⟩

theorem mem_assign_weak (o : VersionUpgrades) (k : UpgradeKey) (v : String)
    (k1 : UpgradeKey) (w1 : String) (h : (k1, w1) ∈ assign o k v) :
    w1 = v ∨ (k1, w1) ∈ o := by
  induction o with
  | nil => simp [assign] at h; exact Or.inl h.2
  | cons e rest ih =>
    obtain ⟨k2, v2⟩ := e
    by_cases hk : k2 = k
    · simp only [assign, hk, if_true] at h
      rcases List.mem_cons.1 h with heq | hmem
      · cases heq; exact Or.inl rfl
      · exact Or.inr (List.mem_cons_of_mem _ hmem)
    · simp only [assign, hk, if_false] at h
      rcases List.mem_cons.1 h with heq | hmem
      · cases heq; exact Or.inr (List.mem_cons_self _ _)
      · rcases ih hmem with h1 | h1
        · exact Or.inl h1
        · exact Or.inr (List.mem_cons_of_mem _ h1)

theorem mem_bucketStep (E : Env) (config : Config) (cm : Nat) (o : VersionUpgrades) (v : String)
    (k1 : UpgradeKey) (w1 : String) (h : (k1, w1) ∈ bucketStep E config cm o v) :
    w1 = v ∨ (k1, w1) ∈ o := by
  unfold bucketStep at h
  simp only at h
  split at h
  · exact mem_assign_weak o _ v k1 w1 h
  · exact Or.inr h

theorem mem_foldl_bucketStep (E : Env) (config : Config) (cm : Nat) (versions : List String)
    (o : VersionUpgrades) (k1 : UpgradeKey) (w1 : String)
    (h : (k1, w1) ∈ versions.foldl (bucketStep E config cm) o) :
    w1 ∈ versions ∨ (k1, w1) ∈ o := by
  induction versions generalizing o with
  | nil => exact Or.inr h
  | cons v rest ih =>
    rcases ih (bucketStep E config cm o v) h with h1 | h1
    · exact Or.inl (List.mem_cons_of_mem _ h1)
    · rcases mem_bucketStep E config cm o v k1 w1 h1 with h2 | h2
      · exact Or.inl (by simp [h2])
      · exact Or.inr h2

/-- Every version stored by the bucketing loop is one of the candidates. -/
theorem mem_bucket (E : Env) (config : Config) (cm : Nat) (versions : List String)
    (k : UpgradeKey) (w : String) (h : (k, w) ∈ bucket E config cm versions) : w ∈ versions := by
  rcases mem_foldl_bucketStep E config cm versions [] k w h with h1 | h1
  · exact h1
  · simp at h1

theorem mem_winners (o : VersionUpgrades) (v : String) (h : v ∈ winners o) :
    ∃ k, (k, v) ∈ o := by
  simp only [winners, List.mem_filterMap] at h
  obtain ⟨k, _, hk⟩ := h
  exact ⟨k, mem_of_lookup o k v hk⟩

theorem mem_tagUpgrades (E : Env) (config : Config) (cm : Nat) (s : String)
    (versions : List String) (records : List Upgrade)
    (h : tagUpgrades E config cm s versions = Except.ok records) (r : Upgrade)
    (hr : r ∈ records) : ∃ v ∈ versions, tagUpgrade E config cm s v = Except.ok r := by
  induction versions generalizing records with
  | nil =>
    simp [tagUpgrades] at h
    subst h
    simp at hr
  | cons v rest ih =>
    simp only [tagUpgrades] at h
    cases h1 : tagUpgrade E config cm s v with
    | error e => simp [h1] at h
    | ok u =>
      cases h2 : tagUpgrades E config cm s rest with
      | error e => simp [h1, h2] at h
      | ok more =>
        simp [h1, h2] at h
        subst h
        rcases List.mem_cons.1 hr with heq | hmem
        · subst heq
          exact ⟨v, List.mem_cons_self _ _, h1⟩
        · obtain ⟨v2, hv2, hok⟩ := ih more h2 hmem
          exact ⟨v2, List.mem_cons_of_mem _ hv2, hok⟩

/-- What a successfully assembled tag record contains. -/
theorem tagUpgrade_ok (E : Env) (config : Config) (cm : Nat) (s v : String) (r : Upgrade)
    (h : tagUpgrade E config cm s v = Except.ok r) :
    r.newTag = newTagOf s v ∧ r.isTagRecord = true ∧ r.newDigest ≠ Digest.null ∧
      r.isRange = false := by
  unfold tagUpgrade at h
  simp only at h
  split at h
  · split at h
    · rename_i hd
      injection h with h
      subst h
      refine ⟨rfl, ?_, ?_, rfl⟩
      · simp only [Upgrade.isTagRecord]
        split <;> simp
      · intro hnull
        simp only at hnull
        rw [hnull] at hd
        simp [Digest.truthy] at hd
    · simp at h
  · injection h with h
    subst h
    refine ⟨rfl, ?_, by simp, rfl⟩
    simp only [Upgrade.isTagRecord]
    split <;> simp

theorem digestBranch_spec (E : Env) (config : Config) :
    (digestBranch E config = none → ∀ d, ¬ DigestChanged E config d) ∧
    (∀ upgrades, digestBranch E config = some upgrades →
      (upgrades = [] ∧ ∀ d, ¬ DigestChanged E config d) ∨
      ∃ d, DigestChanged E config d ∧ upgrades = [digestUpgrade config d]) := by
  constructor
  · rintro hnone d ⟨hact, hd, hd0, hcur⟩
    simp [digestBranch, hact, hd, hd0, hcur] at hnone
  · intro upgrades hsome
    by_cases hch : ∃ d, DigestChanged E config d
    · obtain ⟨d, hact, hd, hd0, hcur⟩ := hch
      right
      refine ⟨d, ⟨hact, hd, hd0, hcur⟩, ?_⟩
      simp [digestBranch, hact, hd, hd0, hcur] at hsome
      exact hsome.symm
    · left
      refine ⟨?_, fun d hd => hch ⟨d, hd⟩⟩
      unfold digestBranch at hsome
      cases hact : digestActive config with
      | false =>
        simp [hact] at hsome
        exact hsome
      | true =>
        simp only [hact, if_true] at hsome
        cases hd : E.getDigest config.dockerRegistry config.depName config.currentTag with
        | undefined => simp [hd] at hsome
        | null => simp [hd] at hsome
        | str d =>
          simp only [hd] at hsome
          by_cases hd0 : d = ""
          · simp [hd0] at hsome
          · by_cases hcur : config.currentDigest = some d
            · simp [hd0, hcur] at hsome
              exact hsome
            · exact absurd ⟨d, hact, hd, hd0, hcur⟩ hch

theorem dropNullDigest_eq_self (upgrades : List Upgrade)
    (h : ∀ u ∈ upgrades, u.newDigest ≠ Digest.null) : dropNullDigest upgrades = upgrades := by
  unfold dropNullDigest
  exact List.filter_eq_self.2 (fun u hu => by simpa using h u hu)

/-- The value returned by the resolver is the digest branch's records (at
most one) followed by the tag branch's records, each assembled from an
eligible version. -/
theorem result_shape (E : Env) (config : Config) (result : List Upgrade)
    (hres : getPackageUpdates E config = Except.ok result) :
    ∃ D T, result = D ++ T ∧
      ((D = [] ∧ ∀ d, ¬ DigestChanged E config d) ∨
        ∃ d b, DigestChanged E config d ∧
          D = [{ digestUpgrade config d with isRange := b }]) ∧
      (∀ r ∈ T, ∃ cur v, config.currentTag = some cur ∧ cur ≠ "" ∧
        E.isValid (getVersion cur) = true ∧ v ∈ versionList E config cur ∧
        tagUpgrade E config (E.getMajor (getVersion cur)) (getSuffix cur) v = Except.ok r) := by
  unfold getPackageUpdates at hres
  cases hdb : digestBranch E config with
  | none =>
    simp only [hdb] at hres
    injection hres with hres
    subst hres
    exact ⟨[], [], rfl, Or.inl ⟨rfl, (digestBranch_spec E config).1 hdb⟩, by simp⟩
  | some upgrades =>
    simp only [hdb] at hres
    have hup := (digestBranch_spec E config).2 upgrades hdb
    have hnull : ∀ u ∈ upgrades, u.newDigest ≠ Digest.null := by
      rcases hup with ⟨h, _⟩ | ⟨d, _, h⟩
      · subst h; simp
      · subst h; simp [digestUpgrade]
    have hD : (upgrades = [] ∧ ∀ d, ¬ DigestChanged E config d) ∨
        ∃ d b, DigestChanged E config d ∧
          upgrades = [{ digestUpgrade config d with isRange := b }] := by
      rcases hup with h | ⟨d, h1, h2⟩
      · exact Or.inl h
      · exact Or.inr ⟨d, false, h1, h2⟩
    have hplain : (Except.ok (dropNullDigest upgrades) : Except String (List Upgrade)) =
        Except.ok result →
        ∃ D T, result = D ++ T ∧
          ((D = [] ∧ ∀ d, ¬ DigestChanged E config d) ∨
            ∃ d b, DigestChanged E config d ∧
              D = [{ digestUpgrade config d with isRange := b }]) ∧
          (∀ r ∈ T, ∃ cur v, config.currentTag = some cur ∧ cur ≠ "" ∧
            E.isValid (getVersion cur) = true ∧ v ∈ versionList E config cur ∧
            tagUpgrade E config (E.getMajor (getVersion cur)) (getSuffix cur) v =
              Except.ok r) := by
      intro h
      injection h with h
      rw [dropNullDigest_eq_self upgrades hnull] at h
      subst h
      exact ⟨upgrades, [], by simp, hD, by simp⟩
    cases hct : config.currentTag with
    | none =>
      simp only [hct] at hres
      have h := hplain hres
      rw [hct] at h
      exact h
    | some cur =>
      simp only [hct] at hres
      by_cases hcur : cur = ""
      · simp only [hcur, ne_eq, not_true_eq_false, if_false] at hres
        have h := hplain hres
        rw [hct] at h
        exact h
      · simp only [hcur, ne_eq, not_false_eq_true, if_true] at hres
        unfold tagBranch at hres
        simp only at hres
        cases hvalid : E.isValid (getVersion cur) with
        | false =>
          simp only [hvalid, Bool.not_false, if_true] at hres
          injection hres with hres
          subst hres
          refine ⟨upgrades.map (fun upgrade => { upgrade with isRange := true }), [],
            by simp, ?_, by simp⟩
          rcases hup with ⟨h, h2⟩ | ⟨d, h1, h2⟩
          · subst h
            exact Or.inl ⟨rfl, h2⟩
          · subst h2
            exact Or.inr ⟨d, true, h1, rfl⟩
        | true =>
          simp only [hvalid, Bool.not_true, if_false] at hres
          cases htu : tagUpgrades E config (E.getMajor (getVersion cur)) (getSuffix cur)
              (winners (bucket E config (E.getMajor (getVersion cur))
                (versionList E config cur))) with
          | error e => simp [htu] at hres
          | ok records =>
            simp only [htu] at hres
            injection hres with hres
            have horigin : ∀ r ∈ records, ∃ v, v ∈ versionList E config cur ∧
                tagUpgrade E config (E.getMajor (getVersion cur)) (getSuffix cur) v =
                  Except.ok r := by
              intro r hr
              obtain ⟨v, hv, hok⟩ := mem_tagUpgrades E config _ _ _ records htu r hr
              obtain ⟨k, hk⟩ := mem_winners _ v hv
              exact ⟨v, mem_bucket E config _ _ k v hk, hok⟩
            have hnull2 : ∀ u ∈ upgrades ++ records, u.newDigest ≠ Digest.null := by
              intro u hu
              rcases List.mem_append.1 hu with hu | hu
              · exact hnull u hu
              · obtain ⟨v, _, hok⟩ := horigin u hu
                exact (tagUpgrade_ok E config _ _ v u hok).2.2.1
            rw [dropNullDigest_eq_self _ hnull2] at hres
            subst hres
            refine ⟨upgrades, records, rfl, hD, ?_⟩
            intro r hr
            obtain ⟨v, hv, hok⟩ := horigin r hr
            exact ⟨cur, v, rfl, hcur, hvalid, hv, hok⟩

theorem mk_append_dash_right (pre post : List Char) :
    String.mk pre ++ ("-" ++ String.mk post) = String.mk (pre ++ '-' :: post) := by
  apply String.ext
  simp [String.data_append]

/-- Reattaching the suffix of a tag to its version gives a tag that parses
back to that version and suffix. -/
theorem parse_newTagOf (tag : String) :
    getVersion (newTagOf (getSuffix tag) (getVersion tag)) = getVersion tag ∧
      getSuffix (newTagOf (getSuffix tag) (getVersion tag)) = getSuffix tag := by
  rcases tag_shape tag with h | ⟨rest, rfl⟩ | ⟨pre, post, hne, hd, rfl⟩
  · obtain ⟨hv, hs⟩ := parse_no_dash tag h
    rw [hv, hs]
    simp [newTagOf, hv, hs]
  · obtain ⟨hv, hs⟩ := parse_leading_dash rest
    rw [hv, hs]
    simp [newTagOf, hv, hs]
  · obtain ⟨hv, hs⟩ := parse_split pre post hne hd
    rw [hv, hs]
    by_cases hp : post = []
    · subst hp
      have : newTagOf (String.mk []) (String.mk pre) = String.mk pre := by
        simp [newTagOf]
      rw [this]
      exact parse_no_dash (String.mk pre) hd
    · have hpne : String.mk post ≠ "" := fun e => hp (by simpa using congrArg String.data e)
      have : newTagOf (String.mk post) (String.mk pre) = String.mk (pre ++ '-' :: post) := by
        simp [newTagOf, hpne, mk_append_dash_right]
      rw [this]
      exact parse_split pre post hne hd

/-! ## Tag records -/

theorem digestUpgrade_isDigestRecord (config : Config) (d : String) (b : Bool) :
    ({ digestUpgrade config d with isRange := b } : Upgrade).isDigestRecord = true ∧
    ({ digestUpgrade config d with isRange := b } : Upgrade).isTagRecord = false ∧
    ({ digestUpgrade config d with isRange := b } : Upgrade).type =
      if truthy config.currentDigest then UpgradeType.digest else UpgradeType.pin := by
  simp only [Upgrade.isDigestRecord, Upgrade.isTagRecord, digestUpgrade]
  by_cases h : truthy config.currentDigest = true <;> simp [h]

theorem isDigestRecord_of_isTagRecord (r : Upgrade) (h : r.isTagRecord = true) :
    r.isDigestRecord = false := by
  simp only [Upgrade.isTagRecord, Upgrade.isDigestRecord] at h ⊢
  cases ht : r.type <;> simp [ht] at h ⊢

/-- Where a tag record of the result comes from: a tag of the registry's
list with the current suffix, whose version passed every filter. -/
theorem tag_record_origin (E : Env) (config : Config) (result : List Upgrade)
    (hres : getPackageUpdates E config = Except.ok result) (r : Upgrade) (hr : r ∈ result)
    (htag : r.isTagRecord = true) :
    ∃ cur tag, config.currentTag = some cur ∧ cur ≠ "" ∧
      (∃ allTags, E.getTags config.dockerRegistry config.depName = some allTags ∧
        tag ∈ allTags) ∧
      getSuffix tag = getSuffix cur ∧
      getVersion tag ∈ versionList E config cur ∧
      r.newTag = newTagOf (getSuffix cur) (getVersion tag) ∧
      getVersion r.newTag = getVersion tag ∧ getSuffix r.newTag = getSuffix cur := by
  obtain ⟨D, T, hDT, hD, hT⟩ := result_shape E config result hres
  subst hDT
  rcases List.mem_append.1 hr with hmem | hmem
  · exfalso
    rcases hD with ⟨h, _⟩ | ⟨d, b, _, h⟩
    · subst h; simp at hmem
    · subst h
      simp only [List.mem_singleton] at hmem
      subst hmem
      rw [(digestUpgrade_isDigestRecord config d b).2.1] at htag
      exact absurd htag (by simp)
  · obtain ⟨cur, v, hct, hcur, _, hv, hok⟩ := hT r hmem
    obtain ⟨⟨allTags, tag, hts, htm, hsuf, hver⟩, _⟩ := mem_versionList E config cur v hv
    have hnew := (tagUpgrade_ok E config _ _ v r hok).1
    subst hver
    have hparse := parse_newTagOf tag
    rw [hsuf] at hparse
    refine ⟨cur, tag, hct, hcur, ⟨allTags, hts, htm⟩, hsuf, hv, hnew, ?_, ?_⟩
    · rw [hnew]; exact hparse.1
    · rw [hnew]; exact hparse.2

/-- C7: with `ignoreUnstable` true, every returned tag record whose version
matches the unstable pattern has the major of the current version, and the
current version matches the pattern too; so with a stable current version
every returned tag record has a stable version. -/
theorem unstable_only_on_unstable_track (E : Env) (config : Config) (result : List Upgrade)
    (hignore : config.ignoreUnstable = true)
    (hres : getPackageUpdates E config = Except.ok result) :
    (∀ r ∈ result, r.isTagRecord = true →
      isStable E (getVersion r.newTag) config.unstablePattern = false →
      ∃ cur, config.currentTag = some cur ∧
        E.getMajor (getVersion r.newTag) = E.getMajor (getVersion cur) ∧
        isStable E (getVersion cur) config.unstablePattern = false) ∧
    (∀ cur, config.currentTag = some cur →
      isStable E (getVersion cur) config.unstablePattern = true →
      ∀ r ∈ result, r.isTagRecord = true →
        isStable E (getVersion r.newTag) config.unstablePattern = true) := by
  have key : ∀ r ∈ result, r.isTagRecord = true →
      isStable E (getVersion r.newTag) config.unstablePattern = false →
      ∃ cur, config.currentTag = some cur ∧
        E.getMajor (getVersion r.newTag) = E.getMajor (getVersion cur) ∧
        isStable E (getVersion cur) config.unstablePattern = false := by
    intro r hr htag hunstable
    obtain ⟨cur, tag, hct, _, _, _, hv, _, hver, _⟩ :=
      tag_record_origin E config result hres r hr htag
    have hst := (mem_versionList E config cur _ hv).2.2.1
    rw [← hver] at hst
    simp only [stabilityTest, hunstable, hignore, Bool.not_true, Bool.false_or,
      Bool.and_eq_true, Bool.not_eq_true', decide_eq_true_eq] at hst
    exact ⟨cur, hct, hst.2, hst.1⟩
  refine ⟨key, ?_⟩
  intro cur hct hstable r hr htag
  by_contra hns
  have hns2 : isStable E (getVersion r.newTag) config.unstablePattern = false := by
    simpa using hns
  obtain ⟨cur2, hct2, _, hus⟩ := key r hr htag hns2
  rw [hct] at hct2
  cases hct2
  rw [hstable] at hus
  exact absurd hus (by simp)

/-- C8: every returned tag record has a version with as many dot-separated
components as the version of the current tag, whatever the version scheme. -/
theorem tag_records_same_component_count (E : Env) (config : Config)
    (result : List Upgrade) (hres : getPackageUpdates E config = Except.ok result) :
    ∀ r ∈ result, r.isTagRecord = true →
      ∃ cur, config.currentTag = some cur ∧
        componentCount (getVersion r.newTag) = componentCount (getVersion cur) := by
  intro r hr htag
  obtain ⟨cur, tag, hct, _, _, _, hv, _, hver, _⟩ :=
    tag_record_origin E config result hres r hr htag
  have hcount := (mem_versionList E config cur _ hv).2.2.2.1
  rw [← hver] at hcount
  exact ⟨cur, hct, hcount⟩

theorem tagUpgrades_withoutOtherSuffix (E : Env) (config : Config) (cur : String) (cm : Nat)
    (s : String) (versions : List String) :
    tagUpgrades (withoutOtherSuffix E cur) config cm s versions =
      tagUpgrades E config cm s versions := by
  induction versions with
  | nil => rfl
  | cons v rest ih =>
    simp only [tagUpgrades, ih]
    rfl

theorem versionList_withoutOtherSuffix (E : Env) (config : Config) (cur : String) :
    versionList (withoutOtherSuffix E cur) config cur = versionList E config cur := by
  simp only [versionList, withoutOtherSuffix]
  cases E.getTags config.dockerRegistry config.depName with
  | none => rfl
  | some allTags =>
    simp only [Option.map_some', filterTags, List.filter_filter, Bool.and_self]
    rfl

theorem bucket_withoutOtherSuffix (E : Env) (config : Config) (cur : String) (cm : Nat)
    (versions : List String) :
    bucket (withoutOtherSuffix E cur) config cm versions = bucket E config cm versions := by
  unfold bucket
  rfl

/-- C9: every returned tag record carries a tag that parses to a valid
version strictly greater than the current tag's version and to the current
tag's suffix, the version being that of a tag of the registry's list with the
current suffix; and removing from the registry's list every tag with a
different suffix leaves the outcome of the resolver unchanged. -/
theorem tag_records_newer_same_suffix (E : Env) (config : Config) (result : List Upgrade)
    (hres : getPackageUpdates E config = Except.ok result) :
    (∀ r ∈ result, r.isTagRecord = true →
      ∃ cur, config.currentTag = some cur ∧
        E.isValid (getVersion r.newTag) = true ∧
        E.compareVersions (getVersion r.newTag) (getVersion cur) > 0 ∧
        getSuffix r.newTag = getSuffix cur ∧
        ∃ allTags tag, E.getTags config.dockerRegistry config.depName = some allTags ∧
          tag ∈ allTags ∧ getSuffix tag = getSuffix cur ∧
          getVersion tag = getVersion r.newTag) ∧
    (∀ cur, config.currentTag = some cur →
      getPackageUpdates (withoutOtherSuffix E cur) config = Except.ok result) := by
  constructor
  · intro r hr htag
    obtain ⟨cur, tag, hct, _, ⟨allTags, hts, htm⟩, htsuf, hv, _, hver, hsuf⟩ :=
      tag_record_origin E config result hres r hr htag
    obtain ⟨_, hvalid, _, _, hcmp⟩ := mem_versionList E config cur _ hv
    rw [← hver] at hvalid hcmp
    exact ⟨cur, hct, hvalid, hcmp, hsuf, allTags, tag, hts, htm, htsuf, hver.symm⟩
  · intro cur hct
    rw [← hres]
    have hdb : digestBranch (withoutOtherSuffix E cur) config = digestBranch E config := rfl
    unfold getPackageUpdates
    rw [hdb]
    cases digestBranch E config with
    | none => rfl
    | some upgrades =>
      simp only [hct]
      by_cases hcur : cur = ""
      · simp [hcur]
      · simp only [hcur, ne_eq, not_false_eq_true, if_true]
        unfold tagBranch
        simp only [versionList_withoutOtherSuffix, bucket_withoutOtherSuffix,
          tagUpgrades_withoutOtherSuffix]
        rfl

/-! ## Digest records -/

theorem unchanged_digest_empty (E : Env) (config : Config) (d : String)
    (hcur : config.currentDigest = some d) (hd0 : d ≠ "")
    (hd : E.getDigest config.dockerRegistry config.depName config.currentTag = Digest.str d)
    (hnone : ∀ cur, config.currentTag = some cur → versionList E config cur = []) :
    getPackageUpdates E config = Except.ok [] := by
  have hact : digestActive config = true := by simp [digestActive, hcur, truthy, hd0]
  have hdb : digestBranch E config = some [] := by
    simp [digestBranch, hact, hd, hd0, hcur]
  unfold getPackageUpdates
  rw [hdb]
  cases hct : config.currentTag with
  | none => simp [dropNullDigest]
  | some cur =>
    by_cases hc : cur = ""
    · simp [hc, dropNullDigest]
    · simp only [hc, ne_eq, not_false_eq_true, if_true]
      unfold tagBranch
      simp only [hnone cur hct]
      cases E.isValid (getVersion cur) <;>
        simp [bucket, winners, objectKeys, tagUpgrades, dropNullDigest, lookup]

/-- C10: when the resolver returns a list, it contains a record of type
`pin` or `digest` exactly when digest handling is requested (`currentDigest`
truthy or `pinDigests`), the registry answers a truthy digest for the current
tag and that digest differs from `currentDigest`; there is at most one such
record, it is the first of the list, and its type is `digest` when
`currentDigest` is truthy and `pin` otherwise. With `currentDigest` set to the
digest the registry answers and no eligible version, the result is empty
(whether or not `pinDigests` is set). -/
theorem digest_record_emission (E : Env) (config : Config) (result : List Upgrade)
    (hres : getPackageUpdates E config = Except.ok result) :
    ((∃ r ∈ result, r.isDigestRecord = true) ↔ ∃ d, DigestChanged E config d) ∧
    (result.filter Upgrade.isDigestRecord).length ≤ 1 ∧
    (∀ r ∈ result, r.isDigestRecord = true →
      result.head? = some r ∧
      r.type = if truthy config.currentDigest then UpgradeType.digest else UpgradeType.pin) ∧
    (∀ d, config.currentDigest = some d → d ≠ "" →
      E.getDigest config.dockerRegistry config.depName config.currentTag = Digest.str d →
      (∀ cur, config.currentTag = some cur → versionList E config cur = []) →
      result = []) := by
  obtain ⟨D, T, hDT, hD, hT⟩ := result_shape E config result hres
  have hTtag : ∀ r ∈ T, r.isDigestRecord = false := by
    intro r hr
    obtain ⟨cur, v, _, _, _, _, hok⟩ := hT r hr
    exact isDigestRecord_of_isTagRecord r (tagUpgrade_ok E config _ _ v r hok).2.1
  have hfilterT : T.filter Upgrade.isDigestRecord = [] :=
    List.filter_eq_nil_iff.2 (fun r hr => by simp [hTtag r hr])
  refine ⟨?_, ?_, ?_, ?_⟩
  · constructor
    · rintro ⟨r, hr, hdig⟩
      rw [hDT] at hr
      rcases List.mem_append.1 hr with hmem | hmem
      · rcases hD with ⟨h, _⟩ | ⟨d, b, hch, _⟩
        · subst h; simp at hmem
        · exact ⟨d, hch⟩
      · rw [hTtag r hmem] at hdig
        exact absurd hdig (by simp)
    · rintro ⟨d, hch⟩
      rcases hD with ⟨_, h⟩ | ⟨d2, b, _, h⟩
      · exact absurd hch (h d)
      · refine ⟨{ digestUpgrade config d2 with isRange := b }, ?_,
          (digestUpgrade_isDigestRecord config d2 b).1⟩
        rw [hDT, h]
        simp
  · rw [hDT, List.filter_append, hfilterT, List.append_nil]
    rcases hD with ⟨h, _⟩ | ⟨d, b, _, h⟩
    · subst h; simp
    · subst h
      exact le_trans (List.length_filter_le _ _) (by simp)
  · intro r hr hdig
    rw [hDT] at hr
    rcases List.mem_append.1 hr with hmem | hmem
    · rcases hD with ⟨h, _⟩ | ⟨d, b, _, h⟩
      · subst h; simp at hmem
      · subst h
        simp only [List.mem_singleton] at hmem
        subst hmem
        refine ⟨by rw [hDT]; rfl, (digestUpgrade_isDigestRecord config d b).2.2⟩
    · rw [hTtag r hmem] at hdig
      exact absurd hdig (by simp)
  · intro d hcur hd0 hd hnone
    have := unchanged_digest_empty E config d hcur hd0 hd hnone
    rw [hres] at this
    injection this with this

/-! ## Scenarios -/

/-- C7 (witness): current `1.5.0` on the unstable track of pattern `5`; of
the tags `1.5.1`, `2.5.0`, `2.0.0` the unstable `2.5.0` is not offered. -/
theorem unstable_only_on_unstable_track_witness :
    ∃ result,
      getPackageUpdates (dottedEnv ["1.5.1", "2.5.0", "2.0.0"] (fun _ => Digest.undefined))
        { plainConfig "1.5.0" true true with unstablePattern := some "5" } =
          Except.ok result ∧
      result.map Upgrade.newTag = ["1.5.1", "2.0.0"] ∧
      ∀ r ∈ result, r.isTagRecord = true →
        isStable (dottedEnv ["1.5.1", "2.5.0", "2.0.0"] (fun _ => Digest.undefined))
          (getVersion r.newTag) (some "5") = false →
        ∃ cur, some "1.5.0" = some cur ∧
          (dottedEnv ["1.5.1", "2.5.0", "2.0.0"] (fun _ => Digest.undefined)).getMajor
              (getVersion r.newTag) =
            (dottedEnv ["1.5.1", "2.5.0", "2.0.0"] (fun _ => Digest.undefined)).getMajor
              (getVersion cur) ∧
          isStable (dottedEnv ["1.5.1", "2.5.0", "2.0.0"] (fun _ => Digest.undefined))
            (getVersion cur) (some "5") = false :=
  ⟨_, rfl, rfl,
    (unstable_only_on_unstable_track
      (dottedEnv ["1.5.1", "2.5.0", "2.0.0"] (fun _ => Digest.undefined))
      { plainConfig "1.5.0" true true with unstablePattern := some "5" } _ rfl rfl).1⟩

/-- C8 (witness): current `1.2.0`; of the tags `1.3.0`, `1.3`, `2.0.0.1`
only the three-component `1.3.0` is offered. -/
theorem tag_records_same_component_count_witness :
    ∃ result,
      getPackageUpdates (dottedEnv ["1.3.0", "1.3", "2.0.0.1"] (fun _ => Digest.undefined))
        (plainConfig "1.2.0" false true) = Except.ok result ∧
      result.map Upgrade.newTag = ["1.3.0"] ∧
      ∀ r ∈ result, r.isTagRecord = true →
        ∃ cur, some "1.2.0" = some cur ∧
          componentCount (getVersion r.newTag) = componentCount (getVersion cur) :=
  ⟨_, rfl, rfl,
    tag_records_same_component_count
      (dottedEnv ["1.3.0", "1.3", "2.0.0.1"] (fun _ => Digest.undefined))
      (plainConfig "1.2.0" false true) _ rfl⟩

/-- C9 (witness): current `1.0.0-alpine` with the registry tags
`1.1.0-alpine` and `1.1.0` gives exactly one record, for `1.1.0-alpine`. -/
theorem tag_records_newer_same_suffix_witness :
    ∃ result,
      getPackageUpdates (dottedEnv ["1.1.0-alpine", "1.1.0"] (fun _ => Digest.undefined))
        (plainConfig "1.0.0-alpine" true true) = Except.ok result ∧
      result.map Upgrade.newTag = ["1.1.0-alpine"] ∧
      getPackageUpdates
        (withoutOtherSuffix (dottedEnv ["1.1.0-alpine", "1.1.0"] (fun _ => Digest.undefined))
          "1.0.0-alpine")
        (plainConfig "1.0.0-alpine" true true) = Except.ok result :=
  ⟨_, rfl, rfl,
    (tag_records_newer_same_suffix
      (dottedEnv ["1.1.0-alpine", "1.1.0"] (fun _ => Digest.undefined))
      (plainConfig "1.0.0-alpine" true true) _ rfl).2 "1.0.0-alpine" rfl⟩

/-- C10 (witness): `pinDigests` with no recorded digest and a registry digest
for the current tag `1.2.0` gives one record, of type `pin`. -/
theorem digest_record_emission_witness :
    ∃ result,
      getPackageUpdates
        (dottedEnv ["1.2.0"] (fun _ => Digest.str "sha256:abcdef1234567890"))
        { plainConfig "1.2.0" true true with pinDigests := true } = Except.ok result ∧
      result.map Upgrade.type = [UpgradeType.pin] ∧
      ((∃ r ∈ result, r.isDigestRecord = true) ↔
        ∃ d, DigestChanged
          (dottedEnv ["1.2.0"] (fun _ => Digest.str "sha256:abcdef1234567890"))
          { plainConfig "1.2.0" true true with pinDigests := true } d) :=
  ⟨_, rfl, rfl,
    (digest_record_emission
      (dottedEnv ["1.2.0"] (fun _ => Digest.str "sha256:abcdef1234567890"))
      { plainConfig "1.2.0" true true with pinDigests := true } _ rfl).1⟩

/-! ## Content of the digest record -/

theorem digestUpgrade_fields (config : Config) (d : String) (b : Bool) :
    ({ digestUpgrade config d with isRange := b } : Upgrade).newTag =
        tagOrLatest config.currentTag ∧
    ({ digestUpgrade config d with isRange := b } : Upgrade).newDigest = Digest.str d ∧
    ({ digestUpgrade config d with isRange := b } : Upgrade).newDigestShort =
        some (String.mk ((d.data.drop 7).take 6)) ∧
    ({ digestUpgrade config d with isRange := b } : Upgrade).newValue =
        String.mk ((d.data.drop 7).take 6) ∧
    ({ digestUpgrade config d with isRange := b } : Upgrade).newFrom =
        registryPrefix config ++
          (config.depName ++ ":" ++ tagOrLatest config.currentTag ++ "@" ++ d) :=
  ⟨rfl, rfl, rfl, rfl, rfl⟩

/-- C11: a returned digest or pin record for the registry digest `d` has
`newTag` equal to the current tag, or `latest` when no tag is set;
`newDigest = d`; `newDigestShort` and `newValue` equal to the characters of `d`
at offsets 7 to 12 (six characters when `d` has at least 13); and `newFrom`
equal to `name:newTag@d`, preceded by `registry/` exactly when a registry is
set. -/
theorem digest_record_content (E : Env) (config : Config) (result : List Upgrade)
    (hres : getPackageUpdates E config = Except.ok result) :
    ∀ r ∈ result, r.isDigestRecord = true →
      ∃ d, DigestChanged E config d ∧
        (∀ t, config.currentTag = some t → t ≠ "" → r.newTag = t) ∧
        (truthy config.currentTag = false → r.newTag = "latest") ∧
        r.newDigest = Digest.str d ∧
        r.newDigestShort = some (String.mk ((d.data.drop 7).take 6)) ∧
        r.newValue = String.mk ((d.data.drop 7).take 6) ∧
        (13 ≤ d.data.length → r.newValue.data.length = 6) ∧
        (∀ reg, config.dockerRegistry = some reg → reg ≠ "" →
          r.newFrom = reg ++ "/" ++ (config.depName ++ ":" ++ r.newTag ++ "@" ++ d)) ∧
        (truthy config.dockerRegistry = false →
          r.newFrom = config.depName ++ ":" ++ r.newTag ++ "@" ++ d) := by
  intro r hr hdig
  obtain ⟨D, T, hDT, hD, hT⟩ := result_shape E config result hres
  subst hDT
  have hrD : r ∈ D := by
    rcases List.mem_append.1 hr with h | h
    · exact h
    · obtain ⟨cur, v, _, _, _, _, hok⟩ := hT r h
      have := isDigestRecord_of_isTagRecord r (tagUpgrade_ok E config _ _ v r hok).2.1
      rw [this] at hdig
      exact absurd hdig (by simp)
  rcases hD with ⟨h, _⟩ | ⟨d, b, hch, h⟩
  · subst h; simp at hrD
  · subst h
    simp only [List.mem_singleton] at hrD
    subst hrD
    obtain ⟨h1, h2, h3, h4, h5⟩ := digestUpgrade_fields config d b
    refine ⟨d, hch, ?_, ?_, h2, h3, h4, ?_, ?_, ?_⟩
    · intro t ht ht0
      rw [h1, ht]
      simp [tagOrLatest, ht0]
    · intro ht
      rw [h1]
      cases hc : config.currentTag with
      | none => rfl
      | some t =>
        rw [hc] at ht
        have : t = "" := by simpa [truthy] using ht
        simp [tagOrLatest, this]
    · intro hlen
      rw [h4]
      simp only [List.length_take, List.length_drop]
      omega
    · intro reg hreg hreg0
      rw [h5, h1]
      simp [registryPrefix, hreg, hreg0]
    · intro hreg
      rw [h5, h1]
      cases hc : config.dockerRegistry with
      | none => simp [registryPrefix, hc]
      | some reg =>
        rw [hc] at hreg
        have : reg = "" := by simpa [truthy] using hreg
        simp [registryPrefix, hc, this]

/-- C11 (witness): `pinDigests` with the current tag `latest`, no recorded
digest and the registry digest `sha256:abcdef1234567890` gives one record of
type `pin` with `newValue` equal to `abcdef`. -/
theorem digest_record_content_witness :
    ∃ result,
      getPackageUpdates
        (dottedEnv [] (fun _ => Digest.str "sha256:abcdef1234567890"))
        { plainConfig "latest" true true with pinDigests := true } = Except.ok result ∧
      result.map Upgrade.type = [UpgradeType.pin] ∧
      result.map Upgrade.newValue = ["abcdef"] ∧
      result.map Upgrade.newFrom = ["node:latest@sha256:abcdef1234567890"] ∧
      ∀ r ∈ result, r.isDigestRecord = true →
        ∃ d, DigestChanged (dottedEnv [] (fun _ => Digest.str "sha256:abcdef1234567890"))
            { plainConfig "latest" true true with pinDigests := true } d ∧
          r.newValue = String.mk ((d.data.drop 7).take 6) :=
  ⟨_, rfl, rfl, rfl, rfl, fun r hr hd =>
    let ⟨d, h1, _, _, _, _, h6, _⟩ := digest_record_content
      (dottedEnv [] (fun _ => Digest.str "sha256:abcdef1234567890"))
      { plainConfig "latest" true true with pinDigests := true } _ rfl r hr hd
    ⟨d, h1, h6⟩⟩

/-! ## Digest lookups for the selected versions -/

theorem tagUpgrade_falsy_digest (E : Env) (config : Config) (cm : Nat) (s v : String)
    (hact : digestActive config = true)
    (hd : (E.getDigest config.dockerRegistry config.depName (some (newTagOf s v))).truthy
      = false) :
    tagUpgrade E config cm s v = Except.error "registry-failure" := by
  simp [tagUpgrade, hact, hd]

theorem tagUpgrade_truthy_digest (E : Env) (config : Config) (cm : Nat) (s v : String)
    (hact : digestActive config = true)
    (hd : (E.getDigest config.dockerRegistry config.depName (some (newTagOf s v))).truthy
      = true) :
    ∃ r, tagUpgrade E config cm s v = Except.ok r := by
  simp [tagUpgrade, hact, hd]

theorem tagUpgrade_inactive (E : Env) (config : Config) (cm : Nat) (s v : String)
    (hact : digestActive config = false) :
    ∃ r, tagUpgrade E config cm s v = Except.ok r ∧ r.newDigest = Digest.undefined := by
  simp [tagUpgrade, hact]

theorem tagUpgrade_error (E : Env) (config : Config) (cm : Nat) (s v e : String)
    (h : tagUpgrade E config cm s v = Except.error e) :
    e = "registry-failure" ∧ digestActive config = true ∧
      (E.getDigest config.dockerRegistry config.depName (some (newTagOf s v))).truthy
        = false := by
  unfold tagUpgrade at h
  simp only at h
  split at h
  · rename_i hact
    split at h
    · simp at h
    · rename_i hd
      injection h with h
      exact ⟨h.symm, hact, by simpa using hd⟩
  · simp at h

theorem tagUpgrade_ok_digest (E : Env) (config : Config) (cm : Nat) (s v : String) (r : Upgrade)
    (hact : digestActive config = true)
    (h : tagUpgrade E config cm s v = Except.ok r) :
    r.newDigest = E.getDigest config.dockerRegistry config.depName (some r.newTag) ∧
      r.newDigest.truthy = true := by
  unfold tagUpgrade at h
  simp only [hact, if_true] at h
  split at h
  · rename_i hd
    injection h with h
    subst h
    exact ⟨rfl, hd⟩
  · simp at h

theorem tagUpgrades_error (E : Env) (config : Config) (cm : Nat) (s : String)
    (versions : List String) (e : String)
    (h : tagUpgrades E config cm s versions = Except.error e) :
    e = "registry-failure" ∧ digestActive config = true ∧
      ∃ v ∈ versions,
        (E.getDigest config.dockerRegistry config.depName (some (newTagOf s v))).truthy
          = false := by
  induction versions with
  | nil => simp [tagUpgrades] at h
  | cons v rest ih =>
    simp only [tagUpgrades] at h
    cases h1 : tagUpgrade E config cm s v with
    | error e1 =>
      simp only [h1] at h
      injection h with h
      subst h
      obtain ⟨ha, hb, hc⟩ := tagUpgrade_error E config cm s v e1 h1
      exact ⟨ha, hb, v, List.mem_cons_self _ _, hc⟩
    | ok u =>
      cases h2 : tagUpgrades E config cm s rest with
      | error e2 =>
        simp only [h1, h2] at h
        injection h with h
        subst h
        obtain ⟨ha, hb, w, hw, hc⟩ := ih h2
        exact ⟨ha, hb, w, List.mem_cons_of_mem _ hw, hc⟩
      | ok more => simp [h1, h2] at h

theorem tagUpgrades_ok_of_truthy (E : Env) (config : Config) (cm : Nat) (s : String)
    (versions : List String)
    (h : digestActive config = true → ∀ v ∈ versions,
      (E.getDigest config.dockerRegistry config.depName (some (newTagOf s v))).truthy
        = true) :
    ∃ records, tagUpgrades E config cm s versions = Except.ok records := by
  cases hres : tagUpgrades E config cm s versions with
  | ok records => exact ⟨records, rfl⟩
  | error e =>
    obtain ⟨_, hact, v, hv, hd⟩ := tagUpgrades_error E config cm s versions e hres
    rw [h hact v hv] at hd
    exact absurd hd (by simp)

/-- The value of the resolver for a truthy, valid current tag after the
digest branch has left `upgrades`. -/
theorem getPackageUpdates_valid (E : Env) (config : Config) (cur : String)
    (upgrades : List Upgrade) (hct : config.currentTag = some cur) (hcur : cur ≠ "")
    (hvalid : E.isValid (getVersion cur) = true)
    (hdb : digestBranch E config = some upgrades) :
    getPackageUpdates E config =
      match tagUpgrades E config (E.getMajor (getVersion cur)) (getSuffix cur)
          (winners (bucket E config (E.getMajor (getVersion cur))
            (versionList E config cur))) with
      | Except.error e => Except.error e
      | Except.ok records => Except.ok (upgrades ++ records) := by
  unfold getPackageUpdates
  simp only [hdb, hct, hcur, ne_eq, not_false_eq_true, if_true]
  unfold tagBranch
  simp only [hvalid, Bool.not_true, Bool.false_eq_true, if_false]
  cases htu : tagUpgrades E config (E.getMajor (getVersion cur)) (getSuffix cur)
      (winners (bucket E config (E.getMajor (getVersion cur))
        (versionList E config cur))) with
  | error e => rfl
  | ok records =>
    simp only
    congr 1
    apply dropNullDigest_eq_self
    intro u hu
    rcases List.mem_append.1 hu with hu | hu
    · rcases (digestBranch_spec E config).2 upgrades hdb with ⟨h, _⟩ | ⟨d, _, h⟩
      · subst h; simp at hu
      · subst h
        simp only [List.mem_singleton] at hu
        subst hu
        simp [digestUpgrade]
    · obtain ⟨v, _, hok⟩ := mem_tagUpgrades E config _ _ _ records htu u hu
      exact (tagUpgrade_ok E config _ _ v u hok).2.2.1

theorem digestBranch_found (E : Env) (config : Config) (d : String)
    (hd : E.getDigest config.dockerRegistry config.depName config.currentTag = Digest.str d)
    (hd0 : d ≠ "") : ∃ upgrades, digestBranch E config = some upgrades := by
  unfold digestBranch
  cases digestActive config with
  | false => exact ⟨[], rfl⟩
  | true =>
    simp only [if_true, hd, hd0, if_false]
    by_cases hc : config.currentDigest = some d
    · exact ⟨[], by simp [hc]⟩
    · exact ⟨[digestUpgrade config d], by simp [hc]⟩

/-- C12: with a valid current tag, digest handling requested and a digest
found for the current tag, the resolver fails with `registry-failure` exactly
when the registry answers no (truthy) digest for the new tag of some selected
version, and otherwise returns a list; in a returned list every tag record
carries the non-empty registry digest of its new tag. -/
theorem no_partially_pinned_upgrade (E : Env) (config : Config) (cur d : String)
    (hct : config.currentTag = some cur) (hcur : cur ≠ "")
    (hvalid : E.isValid (getVersion cur) = true)
    (hact : digestActive config = true)
    (hd : E.getDigest config.dockerRegistry config.depName config.currentTag = Digest.str d)
    (hd0 : d ≠ "") :
    (getPackageUpdates E config = Except.error "registry-failure" ↔
      ∃ v ∈ winners (bucket E config (E.getMajor (getVersion cur))
          (versionList E config cur)),
        (E.getDigest config.dockerRegistry config.depName
          (some (newTagOf (getSuffix cur) v))).truthy = false) ∧
    (getPackageUpdates E config = Except.error "registry-failure" ∨
      ∃ result, getPackageUpdates E config = Except.ok result) ∧
    (∀ result, getPackageUpdates E config = Except.ok result →
      ∀ r ∈ result, r.isTagRecord = true →
        r.newDigest = E.getDigest config.dockerRegistry config.depName (some r.newTag) ∧
        ∃ s, s ≠ "" ∧ r.newDigest = Digest.str s) := by
  obtain ⟨upgrades, hdb⟩ := digestBranch_found E config d hd hd0
  have hval := getPackageUpdates_valid E config cur upgrades hct hcur hvalid hdb
  refine ⟨?_, ?_, ?_⟩
  · rw [hval]
    constructor
    · intro h
      cases htu : tagUpgrades E config (E.getMajor (getVersion cur)) (getSuffix cur)
          (winners (bucket E config (E.getMajor (getVersion cur))
            (versionList E config cur))) with
      | error e => exact (tagUpgrades_error E config _ _ _ e htu).2.2
      | ok records => simp [htu] at h
    · rintro ⟨v, hv, hfalsy⟩
      cases htu : tagUpgrades E config (E.getMajor (getVersion cur)) (getSuffix cur)
          (winners (bucket E config (E.getMajor (getVersion cur))
            (versionList E config cur))) with
      | error e =>
        simp only
        rw [(tagUpgrades_error E config _ _ _ e htu).1]
      | ok records =>
        exfalso
        -- a successful loop assembled a record for `v`, so its digest was truthy
        have hall : ∀ (vs : List String) (rs : List Upgrade),
            tagUpgrades E config (E.getMajor (getVersion cur)) (getSuffix cur) vs =
              Except.ok rs →
            ∀ w ∈ vs, (E.getDigest config.dockerRegistry config.depName
              (some (newTagOf (getSuffix cur) w))).truthy = true := by
          intro vs
          induction vs with
          | nil => intro rs _ w hw; simp at hw
          | cons x xs ih =>
            intro rs hrs w hw
            simp only [tagUpgrades] at hrs
            cases h1 : tagUpgrade E config (E.getMajor (getVersion cur)) (getSuffix cur) x with
            | error e1 => simp [h1] at hrs
            | ok u =>
              cases h2 : tagUpgrades E config (E.getMajor (getVersion cur)) (getSuffix cur)
                  xs with
              | error e2 => simp [h1, h2] at hrs
              | ok more =>
                rcases List.mem_cons.1 hw with hwx | hwxs
                · subst hwx
                  by_contra hneg
                  have hf : (E.getDigest config.dockerRegistry config.depName
                      (some (newTagOf (getSuffix cur) w))).truthy = false := by
                    simpa using hneg
                  rw [tagUpgrade_falsy_digest E config _ _ w hact hf] at h1
                  simp at h1
                · exact ih more h2 w hwxs
        rw [hall _ records htu v hv] at hfalsy
        exact absurd hfalsy (by simp)
  · rw [hval]
    cases htu : tagUpgrades E config (E.getMajor (getVersion cur)) (getSuffix cur)
        (winners (bucket E config (E.getMajor (getVersion cur))
          (versionList E config cur))) with
    | error e =>
      left
      simp only
      rw [(tagUpgrades_error E config _ _ _ e htu).1]
    | ok records => exact Or.inr ⟨_, rfl⟩
  · intro result hres r hr htag
    obtain ⟨D, T, hDT, hD, hT⟩ := result_shape E config result hres
    subst hDT
    have hrT : r ∈ T := by
      rcases List.mem_append.1 hr with h | h
      · exfalso
        rcases hD with ⟨h2, _⟩ | ⟨d2, b, _, h2⟩
        · subst h2; simp at h
        · subst h2
          simp only [List.mem_singleton] at h
          subst h
          rw [(digestUpgrade_isDigestRecord config d2 b).2.1] at htag
          exact absurd htag (by simp)
      · exact h
    obtain ⟨cur2, v, _, _, _, _, hok⟩ := hT r hrT
    obtain ⟨h1, h2⟩ := tagUpgrade_ok_digest E config _ _ v r hact hok
    refine ⟨h1, ?_⟩
    cases hnd : r.newDigest with
    | undefined => simp [hnd, Digest.truthy] at h2
    | null => simp [hnd, Digest.truthy] at h2
    | str s =>
      refine ⟨s, ?_, rfl⟩
      simpa [hnd, Digest.truthy] using h2

/-- C12 (witness): with `pinDigests`, a digest for the current tag `1.2.0`
but none for the selected `1.3.0`, the resolver fails with
`registry-failure`. -/
theorem no_partially_pinned_upgrade_witness :
    getPackageUpdates
      (dottedEnv ["1.2.0", "1.3.0"]
        (fun tag => if tag = some "1.2.0" then Digest.str "sha256:0123456789ab"
          else Digest.undefined))
      { plainConfig "1.2.0" true true with pinDigests := true } =
        Except.error "registry-failure" :=
  (no_partially_pinned_upgrade
    (dottedEnv ["1.2.0", "1.3.0"]
      (fun tag => if tag = some "1.2.0" then Digest.str "sha256:0123456789ab"
        else Digest.undefined))
    { plainConfig "1.2.0" true true with pinDigests := true } "1.2.0" "sha256:0123456789ab"
    rfl (by decide) (by decide) (by decide) (by decide) (by decide)).1.2
    ⟨"1.3.0", by decide, by decide⟩

/-! ## Early returns -/

theorem digestBranch_eq_none (E : Env) (config : Config)
    (hact : digestActive config = true)
    (hd : (E.getDigest config.dockerRegistry config.depName config.currentTag).truthy
      = false) : digestBranch E config = none := by
  unfold digestBranch
  simp only [hact, if_true]
  cases hg : E.getDigest config.dockerRegistry config.depName config.currentTag with
  | undefined => rfl
  | null => rfl
  | str s =>
    rw [hg] at hd
    have : s = "" := by simpa [Digest.truthy] using hd
    simp [this]

/-- C13 (counterexample): with `pinDigests` and a registry that answers no
digest for the current tag `1.2.0`, the resolver returns the successful empty
list, the same value as a run without digest handling that finds no newer
tag. -/
theorem missing_current_digest_counterexample :
    digestActive { plainConfig "1.2.0" true true with pinDigests := true } = true ∧
    (dottedEnv ["1.2.0", "1.3.0"] (fun _ => Digest.undefined)).getDigest none "node"
      (some "1.2.0") = Digest.undefined ∧
    getPackageUpdates (dottedEnv ["1.2.0", "1.3.0"] (fun _ => Digest.undefined))
      { plainConfig "1.2.0" true true with pinDigests := true } = Except.ok [] ∧
    getPackageUpdates (dottedEnv ["1.2.0", "1.3.0"] (fun _ => Digest.undefined))
      { plainConfig "1.2.0" true true with pinDigests := true } =
    getPackageUpdates (dottedEnv ["1.2.0"] (fun _ => Digest.undefined))
      (plainConfig "1.2.0" true true) :=
  ⟨rfl, rfl, rfl, rfl⟩

/-- C13 (amended): when digest handling is requested and the registry
answers no (truthy) digest for the current tag, the resolver returns the
successful empty list: no record and no failure. -/
theorem missing_current_digest_returns_empty (E : Env) (config : Config)
    (hact : digestActive config = true)
    (hd : (E.getDigest config.dockerRegistry config.depName config.currentTag).truthy
      = false) : getPackageUpdates E config = Except.ok [] := by
  unfold getPackageUpdates
  rw [digestBranch_eq_none E config hact hd]

/-- C13 (witness): a recorded digest and a registry that answers `null` for
the current tag. -/
theorem missing_current_digest_returns_empty_witness :
    getPackageUpdates (dottedEnv ["1.2.0", "1.3.0"] (fun _ => Digest.null))
      { plainConfig "1.2.0" true true with currentDigest := some "sha256:0123456789ab" } =
        Except.ok [] :=
  missing_current_digest_returns_empty (dottedEnv ["1.2.0", "1.3.0"] (fun _ => Digest.null))
    { plainConfig "1.2.0" true true with currentDigest := some "sha256:0123456789ab" }
    (by decide) (by decide)

theorem getPackageUpdates_invalid (E : Env) (config : Config) (cur : String)
    (upgrades : List Upgrade) (hct : config.currentTag = some cur) (hcur : cur ≠ "")
    (hinvalid : E.isValid (getVersion cur) = false)
    (hdb : digestBranch E config = some upgrades) :
    getPackageUpdates E config =
      Except.ok (upgrades.map (fun upgrade => { upgrade with isRange := true })) := by
  unfold getPackageUpdates
  simp only [hdb, hct, hcur, ne_eq, not_false_eq_true, if_true]
  unfold tagBranch
  simp only [hinvalid, Bool.not_false, if_true]

/-- C14: when the current tag is set and its version is not valid, and the
digest branch has left the records `upgrades`, the resolver returns exactly
those records, each with `isRange = true`; they are digest or pin records,
at most one, none is a tag record, and the result is the same whatever tag
list the registry returns. -/
theorem invalid_current_tag_skips_tag_branch (E : Env) (config : Config) (cur : String)
    (upgrades : List Upgrade) (hct : config.currentTag = some cur) (hcur : cur ≠ "")
    (hinvalid : E.isValid (getVersion cur) = false)
    (hdb : digestBranch E config = some upgrades) :
    getPackageUpdates E config =
      Except.ok (upgrades.map (fun upgrade => { upgrade with isRange := true })) ∧
    upgrades.length ≤ 1 ∧
    (∀ r ∈ upgrades.map (fun upgrade => { upgrade with isRange := true }),
      r.isRange = true ∧ r.isDigestRecord = true ∧ r.isTagRecord = false) ∧
    (∀ getTags : Option String → String → Option (List String),
      getPackageUpdates { E with getTags := getTags } config =
        getPackageUpdates E config) := by
  have hmain := getPackageUpdates_invalid E config cur upgrades hct hcur hinvalid hdb
  refine ⟨hmain, ?_, ?_, ?_⟩
  · rcases (digestBranch_spec E config).2 upgrades hdb with ⟨h, _⟩ | ⟨d, _, h⟩
    · subst h; simp
    · subst h; simp
  · intro r hr
    rcases (digestBranch_spec E config).2 upgrades hdb with ⟨h, _⟩ | ⟨d, _, h⟩
    · subst h; simp at hr
    · subst h
      simp only [List.map_cons, List.map_nil, List.mem_singleton] at hr
      subst hr
      exact ⟨rfl, (digestUpgrade_isDigestRecord config d true).1,
        (digestUpgrade_isDigestRecord config d true).2.1⟩
  · intro getTags
    rw [hmain]
    exact getPackageUpdates_invalid { E with getTags := getTags } config cur upgrades hct hcur
      hinvalid hdb

/-- C14 (witness): the current tag `stable` with `pinDigests` and a registry
digest gives exactly one record, the pin record marked as a range. -/
theorem invalid_current_tag_skips_tag_branch_witness :
    ∃ result,
      getPackageUpdates
        (dottedEnv ["stable", "1.0.0", "2.0.0"]
          (fun _ => Digest.str "sha256:abcdef1234567890"))
        { plainConfig "stable" true true with pinDigests := true } = Except.ok result ∧
      result.map Upgrade.type = [UpgradeType.pin] ∧
      result.map Upgrade.isRange = [true] ∧
      result.map Upgrade.newTag = ["stable"] :=
  ⟨_, (invalid_current_tag_skips_tag_branch
      (dottedEnv ["stable", "1.0.0", "2.0.0"]
        (fun _ => Digest.str "sha256:abcdef1234567890"))
      { plainConfig "stable" true true with pinDigests := true } "stable"
      [digestUpgrade { plainConfig "stable" true true with pinDigests := true }
        "sha256:abcdef1234567890"]
      rfl (by decide) (by decide) rfl).1, rfl, rfl, rfl⟩

/-! ## Decimal strings -/

theorem digitChar_value (k : Nat) (h : k < 10) : (Nat.digitChar k).toNat - 48 = k := by
  interval_cases k <;> rfl

theorem foldl_toDigitsCore (fuel n : Nat) (ds : List Char) (h : n < fuel) :
    List.foldl (fun n c => 10 * n + (c.toNat - 48)) 0 (Nat.toDigitsCore 10 fuel n ds) =
      List.foldl (fun n c => 10 * n + (c.toNat - 48)) n ds := by
  induction fuel generalizing n ds with
  | zero => omega
  | succ fuel ih =>
    unfold Nat.toDigitsCore
    simp only
    by_cases h0 : n / 10 = 0
    · have hn : n < 10 := by omega
      simp only [h0, if_true, List.foldl_cons]
      rw [digitChar_value (n % 10) (Nat.mod_lt _ (by omega))]
      congr 1
      omega
    · simp only [h0, if_false]
      rw [ih (n / 10) _ (by omega)]
      simp only [List.foldl_cons]
      rw [digitChar_value (n % 10) (Nat.mod_lt _ (by omega))]
      congr 1
      omega

/-- The decimal string of a number converts back to the number. -/
theorem toNumber_toString (n : Nat) : toNumber (toString n) = n := by
  show digitsValue (Nat.toDigits 10 n) = n
  unfold digitsValue Nat.toDigits
  rw [foldl_toDigitsCore (n + 1) n [] (by omega)]
  rfl

/-! ## Assembly of tag records -/

theorem registryPrefix_spec (config : Config) :
    (∀ reg, config.dockerRegistry = some reg → reg ≠ "" →
      registryPrefix config = reg ++ "/") ∧
    (truthy config.dockerRegistry = false → registryPrefix config = "") := by
  constructor
  · intro reg hreg hreg0
    simp [registryPrefix, hreg, hreg0]
  · intro h
    cases hc : config.dockerRegistry with
    | none => simp [registryPrefix, hc]
    | some reg =>
      rw [hc] at h
      have : reg = "" := by simpa [truthy] using h
      simp [registryPrefix, hc, this]

theorem tagUpgrade_fields (E : Env) (config : Config) (cm : Nat) (s v : String) (r : Upgrade)
    (h : tagUpgrade E config cm s v = Except.ok r) :
    r.newTag = newTagOf s v ∧ r.newValue = r.newTag ∧
    r.newMajor = some (toString (E.getMajor v)) ∧
    r.newDepTag = some (config.depName ++ ":" ++ r.newTag) ∧
    (r.type = if E.getMajor v > cm then UpgradeType.major else UpgradeType.minor) ∧
    ((digestActive config = false ∧ r.newDigest = Digest.undefined ∧
        r.newFrom = registryPrefix config ++ (config.depName ++ ":" ++ r.newTag)) ∨
      (digestActive config = true ∧ ∃ dg, dg ≠ "" ∧ r.newDigest = Digest.str dg ∧
        E.getDigest config.dockerRegistry config.depName (some r.newTag) = Digest.str dg ∧
        r.newFrom =
          registryPrefix config ++ (config.depName ++ ":" ++ r.newTag) ++ ("@" ++ dg))) := by
  unfold tagUpgrade at h
  simp only at h
  cases hact : digestActive config with
  | false =>
    simp only [hact, Bool.false_eq_true, if_false] at h
    injection h with h
    subst h
    exact ⟨rfl, rfl, rfl, rfl, rfl, Or.inl ⟨rfl, rfl, rfl⟩⟩
  | true =>
    simp only [hact, if_true] at h
    cases hd : E.getDigest config.dockerRegistry config.depName (some (newTagOf s v)) with
    | undefined => simp [hd, Digest.truthy] at h
    | null => simp [hd, Digest.truthy] at h
    | str dg =>
      by_cases hdg : dg = ""
      · simp [hd, Digest.truthy, hdg] at h
      · simp only [hd, Digest.truthy, ne_eq, hdg, not_false_eq_true, decide_True, if_true] at h
        injection h with h
        subst h
        exact ⟨rfl, rfl, rfl, rfl, rfl, Or.inr ⟨rfl, dg, hdg, rfl, hd, rfl⟩⟩

/-- A returned tag record is the record assembled for a version selected by
the bucketing loop. -/
theorem tag_record_winner (E : Env) (config : Config) (result : List Upgrade)
    (hres : getPackageUpdates E config = Except.ok result) (r : Upgrade) (hr : r ∈ result)
    (htag : r.isTagRecord = true) :
    ∃ cur v, config.currentTag = some cur ∧ cur ≠ "" ∧ E.isValid (getVersion cur) = true ∧
      v ∈ winners (bucket E config (E.getMajor (getVersion cur)) (versionList E config cur)) ∧
      tagUpgrade E config (E.getMajor (getVersion cur)) (getSuffix cur) v = Except.ok r := by
  obtain ⟨D, T, hDT, hD, hT⟩ := result_shape E config result hres
  have hnotD : ∀ u ∈ D, u.isTagRecord = false := by
    intro u hu
    rcases hD with ⟨h, _⟩ | ⟨d, b, _, h⟩
    · subst h; simp at hu
    · subst h
      simp only [List.mem_singleton] at hu
      subst hu
      exact (digestUpgrade_isDigestRecord config d b).2.1
  have hrT : r ∈ T := by
    rw [hDT] at hr
    rcases List.mem_append.1 hr with h | h
    · rw [hnotD r h] at htag
      exact absurd htag (by simp)
    · exact h
  obtain ⟨cur, v0, hct, hcur, hvalid, _, _⟩ := hT r hrT
  refine ⟨cur, ?_⟩
  cases hdb : digestBranch E config with
  | none =>
    exfalso
    have : getPackageUpdates E config = Except.ok [] := by
      unfold getPackageUpdates
      rw [hdb]
    rw [hres] at this
    injection this with this
    subst this
    simp at hr
  | some upgrades =>
    have hval := getPackageUpdates_valid E config cur upgrades hct hcur hvalid hdb
    rw [hres] at hval
    cases htu : tagUpgrades E config (E.getMajor (getVersion cur)) (getSuffix cur)
        (winners (bucket E config (E.getMajor (getVersion cur))
          (versionList E config cur))) with
    | error e => simp [htu] at hval
    | ok records =>
      simp only [htu] at hval
      injection hval with hval
      subst hval
      have hrR : r ∈ records := by
        rcases List.mem_append.1 hr with h | h
        · exfalso
          rcases (digestBranch_spec E config).2 upgrades hdb with ⟨h2, _⟩ | ⟨d, _, h2⟩
          · subst h2; simp at h
          · subst h2
            simp only [List.mem_singleton] at h
            subst h
            have hf : (digestUpgrade config d).isTagRecord = false :=
              (digestUpgrade_isDigestRecord config d false).2.1
            rw [hf] at htag
            exact absurd htag (by simp)
        · exact h
      obtain ⟨v, hv, hok⟩ := mem_tagUpgrades E config _ _ _ records htu r hrR
      exact ⟨v, hct, hcur, hvalid, hv, hok⟩

/-- C15: a returned tag record is assembled from a selected version `v` and
the current suffix `s`: `newTag` is `v` when `s` is empty and `v-s` otherwise;
`newValue = newTag`; `newMajor` is the decimal string of `getMajor(v)`; `type`
is `major` when `getMajor(v)` exceeds the current major and `minor` otherwise
(also when the comparison is made on the decimal string, as the source
does); `newFrom` is `name:newTag`, preceded by `registry/` exactly when a
registry is set and followed by `@newDigest` exactly when a digest was
resolved. -/
theorem tag_record_assembly (E : Env) (config : Config) (result : List Upgrade)
    (hres : getPackageUpdates E config = Except.ok result) :
    ∀ r ∈ result, r.isTagRecord = true →
      ∃ cur v pre, config.currentTag = some cur ∧
        v ∈ winners (bucket E config (E.getMajor (getVersion cur))
          (versionList E config cur)) ∧
        (getSuffix cur = "" → r.newTag = v) ∧
        (getSuffix cur ≠ "" → r.newTag = v ++ "-" ++ getSuffix cur) ∧
        r.newValue = r.newTag ∧
        r.newMajor = some (toString (E.getMajor v)) ∧
        (r.type = if E.getMajor v > E.getMajor (getVersion cur) then UpgradeType.major
          else UpgradeType.minor) ∧
        (r.type = if toNumber (toString (E.getMajor v)) > E.getMajor (getVersion cur) then
          UpgradeType.major else UpgradeType.minor) ∧
        (∀ reg, config.dockerRegistry = some reg → reg ≠ "" → pre = reg ++ "/") ∧
        (truthy config.dockerRegistry = false → pre = "") ∧
        (r.newDigest = Digest.undefined ∨ ∃ dg, dg ≠ "" ∧ r.newDigest = Digest.str dg) ∧
        (r.newDigest = Digest.undefined →
          r.newFrom = pre ++ (config.depName ++ ":" ++ r.newTag)) ∧
        (∀ dg, r.newDigest = Digest.str dg →
          r.newFrom = pre ++ (config.depName ++ ":" ++ r.newTag) ++ ("@" ++ dg)) := by
  intro r hr htag
  obtain ⟨cur, v, hct, _, _, hv, hok⟩ := tag_record_winner E config result hres r hr htag
  obtain ⟨h1, h2, h3, _, h5, h6⟩ := tagUpgrade_fields E config _ _ v r hok
  refine ⟨cur, v, registryPrefix config, hct, hv, ?_, ?_, h2, h3, h5, ?_,
    (registryPrefix_spec config).1, (registryPrefix_spec config).2, ?_, ?_, ?_⟩
  · intro hs
    rw [h1]
    simp [newTagOf, hs]
  · intro hs
    rw [h1]
    simp only [newTagOf, hs, ne_eq, not_false_eq_true, if_true]
    apply String.ext
    simp [String.data_append]
  · rw [toNumber_toString]
    exact h5
  · rcases h6 with ⟨_, h, _⟩ | ⟨_, dg, hdg, h, _, _⟩
    · exact Or.inl h
    · exact Or.inr ⟨dg, hdg, h⟩
  · intro hund
    rcases h6 with ⟨_, _, h⟩ | ⟨_, dg, _, h, _, _⟩
    · exact h
    · rw [h] at hund
      exact absurd hund (by simp)
  · intro dg hdg
    rcases h6 with ⟨_, h, _⟩ | ⟨_, dg2, _, h, _, hfrom⟩
    · rw [h] at hdg
      exact absurd hdg (by simp)
    · rw [h] at hdg
      injection hdg with hdg
      subst hdg
      exact hfrom

/-- C15 (witness): current `1.0.0-alpine` at the registry `docker.io` with
`pinDigests`; the tag `1.1.0-alpine` gives the record with `newFrom`
`docker.io/node:1.1.0-alpine@sha256:0123456789ab`, `newMajor` `1` and type
`minor`. -/
theorem tag_record_assembly_witness :
    ∃ result,
      getPackageUpdates
        (dottedEnv ["1.1.0-alpine", "1.1.0"] (fun _ => Digest.str "sha256:0123456789ab"))
        { plainConfig "1.0.0-alpine" true true with
          dockerRegistry := some "docker.io",
          currentDigest := some "sha256:0123456789ab" } = Except.ok result ∧
      result.map Upgrade.newFrom = ["docker.io/node:1.1.0-alpine@sha256:0123456789ab"] ∧
      result.map Upgrade.newMajor = [some "1"] ∧
      result.map Upgrade.type = [UpgradeType.minor] ∧
      ∀ r ∈ result, r.isTagRecord = true → r.newValue = r.newTag :=
  ⟨_, rfl, rfl, rfl, rfl, fun r hr ht =>
    let ⟨_, _, _, _, _, _, _, h, _⟩ := tag_record_assembly
      (dottedEnv ["1.1.0-alpine", "1.1.0"] (fun _ => Digest.str "sha256:0123456789ab"))
      { plainConfig "1.0.0-alpine" true true with
        dockerRegistry := some "docker.io",
        currentDigest := some "sha256:0123456789ab" } _ rfl r hr ht
    h⟩

/-! ## Records of a run without digest handling -/

theorem digestBranch_inactive (E : Env) (config : Config)
    (hnd : digestActive config = false) : digestBranch E config = some [] := by
  simp [digestBranch, hnd]

theorem getPackageUpdates_plain (E : Env) (config : Config) (cur : String)
    (hct : config.currentTag = some cur) (hcur : cur ≠ "")
    (hvalid : E.isValid (getVersion cur) = true) (hnd : digestActive config = false) :
    ∃ records,
      tagUpgrades E config (E.getMajor (getVersion cur)) (getSuffix cur)
        (winners (bucket E config (E.getMajor (getVersion cur))
          (versionList E config cur))) = Except.ok records ∧
      getPackageUpdates E config = Except.ok records := by
  obtain ⟨records, hrec⟩ := tagUpgrades_ok_of_truthy E config (E.getMajor (getVersion cur))
    (getSuffix cur) (winners (bucket E config (E.getMajor (getVersion cur))
      (versionList E config cur))) (fun hact => by rw [hnd] at hact; exact absurd hact (by simp))
  refine ⟨records, hrec, ?_⟩
  rw [getPackageUpdates_valid E config cur [] hct hcur hvalid (digestBranch_inactive E config hnd),
    hrec]
  rfl

theorem tagUpgrades_versions (E : Env) (config : Config) (cm : Nat) (s : String)
    (versions : List String) (records : List Upgrade)
    (h : tagUpgrades E config cm s versions = Except.ok records)
    (hparse : ∀ v ∈ versions, getVersion (newTagOf s v) = v) :
    records.map (fun r => getVersion r.newTag) = versions := by
  induction versions generalizing records with
  | nil =>
    simp [tagUpgrades] at h
    subst h
    rfl
  | cons v rest ih =>
    simp only [tagUpgrades] at h
    cases h1 : tagUpgrade E config cm s v with
    | error e => simp [h1] at h
    | ok u =>
      cases h2 : tagUpgrades E config cm s rest with
      | error e => simp [h1, h2] at h
      | ok more =>
        simp [h1, h2] at h
        subst h
        have hu := (tagUpgrade_ok E config cm s v u h1).1
        simp only [List.map_cons, hu, hparse v (List.mem_cons_self _ _)]
        rw [ih more h2 (fun w hw => hparse w (List.mem_cons_of_mem _ hw))]

theorem parse_newTagOf_versionList (E : Env) (config : Config) (cur v : String)
    (hv : v ∈ versionList E config cur) : getVersion (newTagOf (getSuffix cur) v) = v := by
  obtain ⟨⟨_, tag, _, _, hsuf, hver⟩, _⟩ := mem_versionList E config cur v hv
  have := (parse_newTagOf tag).1
  rw [hsuf, hver] at this
  exact this

/-! ## The order of `Object.keys` -/

theorem arrayIndex_eq_some (k : UpgradeKey) (n : Nat) (h : arrayIndex k = some n) :
    k = UpgradeKey.num n := by
  cases k with
  | latest => simp [arrayIndex] at h
  | major => simp [arrayIndex] at h
  | num m =>
    simp only [arrayIndex] at h
    split at h
    · injection h with h
      rw [h]
    · simp at h

theorem map_num_filterMap_arrayIndex (ks : List UpgradeKey) :
    (ks.filterMap arrayIndex).map UpgradeKey.num =
      ks.filter (fun k => (arrayIndex k).isSome) := by
  induction ks with
  | nil => rfl
  | cons k rest ih =>
    cases hk : arrayIndex k with
    | none => simp [List.filterMap_cons, hk, ih, List.filter_cons]
    | some n =>
      have := arrayIndex_eq_some k n hk
      subst this
      simp [List.filterMap_cons, hk, ih, List.filter_cons]

/-- The keys listed by `Object.keys` are the property keys in some order. -/
theorem objectKeys_perm (o : VersionUpgrades) : (objectKeys o).Perm (keysOf o) := by
  unfold objectKeys
  have h1 : (((o.map Prod.fst).filterMap arrayIndex).insertionSort (· ≤ ·)).map UpgradeKey.num
      |>.Perm (((o.map Prod.fst).filterMap arrayIndex).map UpgradeKey.num) :=
    (List.perm_insertionSort _ _).map _
  rw [map_num_filterMap_arrayIndex] at h1
  have h2 : (o.map Prod.fst).filter (fun k => (arrayIndex k).isNone) =
      (o.map Prod.fst).filter (fun k => !(arrayIndex k).isSome) := by
    congr 1
    funext k
    cases arrayIndex k <;> rfl
  rw [h2]
  exact (h1.append_right _).trans (List.filter_append_perm _ _)

theorem winners_map_key (o : VersionUpgrades) (f : String → UpgradeKey)
    (hent : ∀ k w, (k, w) ∈ o → f w = k) :
    (winners o).map f = objectKeys o := by
  have hgen : ∀ ks : List UpgradeKey, (∀ k ∈ ks, k ∈ keysOf o) →
      (ks.filterMap (lookup o)).map f = ks := by
    intro ks
    induction ks with
    | nil => intro _; rfl
    | cons k rest ih =>
      intro hks
      have hk : k ∈ keysOf o := hks k (List.mem_cons_self _ _)
      cases hl : lookup o k with
      | none => exact absurd hk ((lookup_eq_none_iff o k).1 hl)
      | some w =>
        have hw := hent k w (mem_of_lookup o k w hl)
        simp only [List.filterMap_cons, hl, List.map_cons, hw]
        rw [ih (fun k2 hk2 => hks k2 (List.mem_cons_of_mem _ hk2))]
  exact hgen (objectKeys o) (fun k hk => (objectKeys_perm o).mem_iff.1 hk)

theorem bucketInv_bucket (E : Env) (config : Config) (cm : Nat) (versions : List String)
    (hne : ∀ v ∈ versions, v ≠ "")
    (htotal : ∀ a b, E.compareVersions a b ≤ 0 ∨ E.compareVersions b a ≤ 0)
    (htrans : ∀ a b c, E.compareVersions a b ≤ 0 → E.compareVersions b c ≤ 0 →
      E.compareVersions a c ≤ 0) :
    BucketInv E config cm versions (bucket E config cm versions) := by
  have hinv := bucketInv_foldl E config cm htotal htrans versions [] []
    (by simpa using hne) ⟨by simp [keysOf], by simp, by simp⟩
  simpa using hinv

theorem bucketShape_step (E : Env) (config : Config) (cm : Nat) (seen : List String)
    (o : VersionUpgrades) (v : String) (hinv : BucketShape E config cm seen o) :
    BucketShape E config cm (seen ++ [v]) (bucketStep E config cm o v) := by
  obtain ⟨hnd, hkeys, hent⟩ := hinv
  unfold bucketStep
  simp only
  split
  · refine ⟨nodup_keysOf_assign o _ v hnd, ?_, ?_⟩
    · intro u hu
      rcases List.mem_append.1 hu with hu | hu
      · exact mem_keysOf_assign o _ v _ (Or.inl (hkeys u hu))
      · have : u = v := by simpa using hu
        subst this
        exact mem_keysOf_assign o _ u _ (Or.inr rfl)
    · intro k w hkw
      rcases mem_assign o _ v hnd k w hkw with ⟨hk, hw⟩ | ⟨_, hmem⟩
      · subst hk; subst hw
        exact ⟨by simp, rfl⟩
      · exact ⟨List.mem_append_left _ (hent k w hmem).1, (hent k w hmem).2⟩
  · rename_i hcond
    refine ⟨hnd, ?_, fun k w hkw => ⟨List.mem_append_left _ (hent k w hkw).1, (hent k w hkw).2⟩⟩
    intro u hu
    rcases List.mem_append.1 hu with hu | hu
    · exact hkeys u hu
    · have : u = v := by simpa using hu
      subst this
      cases hl : lookup o (upgradeKey E config cm u) with
      | none => simp [hl, truthy] at hcond
      | some cur => exact mem_keysOf (mem_of_lookup o _ cur hl)

theorem bucketShape_foldl (E : Env) (config : Config) (cm : Nat)
    (versions seen : List String) (o : VersionUpgrades)
    (hinv : BucketShape E config cm seen o) :
    BucketShape E config cm (seen ++ versions)
      (versions.foldl (bucketStep E config cm) o) := by
  induction versions generalizing seen o with
  | nil => simpa using hinv
  | cons v rest ih =>
    have := ih (seen ++ [v]) (bucketStep E config cm o v)
      (bucketShape_step E config cm seen o v hinv)
    simpa using this

theorem bucketShape_bucket (E : Env) (config : Config) (cm : Nat) (versions : List String) :
    BucketShape E config cm versions (bucket E config cm versions) := by
  have hinv := bucketShape_foldl E config cm versions [] []
    ⟨by simp [keysOf], by simp, by simp⟩
  simpa using hinv

/-! ## Single-stream and per-major mode -/

theorem tagUpgrade_type (E : Env) (config : Config) (cm : Nat) (s v : String) (r : Upgrade)
    (h : tagUpgrade E config cm s v = Except.ok r) :
    (r.type = UpgradeType.major ↔ E.getMajor v > cm) ∧
    (r.type = UpgradeType.minor ↔ ¬ E.getMajor v > cm) := by
  have ht := (tagUpgrade_fields E config cm s v r h).2.2.2.2.1
  by_cases hgt : E.getMajor v > cm
  · simp [ht, hgt]
  · simp [ht, hgt]

/-- C16: with a valid current tag, no digest handling and a single-stream
policy (`separateMajorMinor` false, or `groupName` set, or `major.automerge`
true), the resolver returns the empty list when no version is eligible and
otherwise exactly one record, a tag record whose version is an eligible
version, of type `major` exactly when its major exceeds the current major;
when the comparison is a total preorder and the eligible versions are
non-empty strings, every eligible version is less than or equal to the
version of that record. -/
theorem single_stream_one_upgrade (E : Env) (config : Config) (cur : String)
    (hct : config.currentTag = some cur) (hcur : cur ≠ "")
    (hvalid : E.isValid (getVersion cur) = true) (hnd : digestActive config = false)
    (hsingle : config.separateMajorMinor = false ∨ truthy config.groupName = true ∨
      config.majorAutomerge = true) :
    (versionList E config cur = [] → getPackageUpdates E config = Except.ok []) ∧
    (versionList E config cur ≠ [] →
      ∃ r, getPackageUpdates E config = Except.ok [r] ∧ r.isTagRecord = true ∧
        getVersion r.newTag ∈ versionList E config cur ∧
        ((∀ v ∈ versionList E config cur, v ≠ "") →
          (∀ a b, E.compareVersions a b ≤ 0 ∨ E.compareVersions b a ≤ 0) →
          (∀ a b c, E.compareVersions a b ≤ 0 → E.compareVersions b c ≤ 0 →
            E.compareVersions a c ≤ 0) →
          ∀ u ∈ versionList E config cur,
            E.compareVersions u (getVersion r.newTag) ≤ 0) ∧
        (r.type = UpgradeType.major ↔
          E.getMajor (getVersion r.newTag) > E.getMajor (getVersion cur)) ∧
        (r.type = UpgradeType.minor ↔
          ¬ E.getMajor (getVersion r.newTag) > E.getMajor (getVersion cur))) := by
  obtain ⟨records, hrec, hres⟩ := getPackageUpdates_plain E config cur hct hcur hvalid hnd
  constructor
  · intro hnil
    rw [hres]
    rw [hnil] at hrec
    simp [bucket, winners, objectKeys, tagUpgrades] at hrec
    rw [hrec]
  · intro hnonempty
    obtain ⟨hnodup, hkeys, hent⟩ := bucketShape_bucket E config (E.getMajor (getVersion cur))
      (versionList E config cur)
    -- every key of the object is `latest`
    have hlatest : ∀ k ∈ keysOf (bucket E config (E.getMajor (getVersion cur))
        (versionList E config cur)), k = UpgradeKey.latest := by
      intro k hk
      obtain ⟨⟨k2, w⟩, hmem, hfst⟩ := List.mem_map.1 hk
      simp only at hfst
      subst hfst
      rw [← (hent k2 w hmem).2]
      exact upgradeKey_single_stream E config _ w hsingle
    obtain ⟨v0, hv0⟩ := List.exists_mem_of_ne_nil _ hnonempty
    have hpresent := hkeys v0 hv0
    rw [upgradeKey_single_stream E config _ v0 hsingle] at hpresent
    -- so the object has exactly one property
    have hone : ∃ w, bucket E config (E.getMajor (getVersion cur))
        (versionList E config cur) = [(UpgradeKey.latest, w)] := by
      generalize bucket E config (E.getMajor (getVersion cur))
        (versionList E config cur) = o at hnodup hlatest hpresent
      match o, hnodup, hlatest, hpresent with
      | [], _, _, hp => simp [keysOf] at hp
      | [(k, w)], _, hl, _ =>
        have := hl k (by simp [keysOf])
        subst this
        exact ⟨w, rfl⟩
      | (k1, w1) :: (k2, w2) :: rest, hn, hl, _ =>
        exfalso
        have h1 := hl k1 (by simp [keysOf])
        have h2 := hl k2 (by simp [keysOf])
        subst h1; subst h2
        simp [keysOf] at hn
    obtain ⟨w, hw⟩ := hone
    have hwmem := hent UpgradeKey.latest w (by rw [hw]; simp)
    have hwin : winners (bucket E config (E.getMajor (getVersion cur))
        (versionList E config cur)) = [w] := by
      rw [hw]
      simp [winners, objectKeys, arrayIndex, lookup]
    rw [hwin] at hrec
    simp only [tagUpgrades] at hrec
    cases h1 : tagUpgrade E config (E.getMajor (getVersion cur)) (getSuffix cur) w with
    | error e => simp [h1] at hrec
    | ok r =>
      simp only [h1] at hrec
      injection hrec with hrec
      subst hrec
      have hparse := parse_newTagOf_versionList E config cur w hwmem.1
      have hnew := (tagUpgrade_ok E config _ _ w r h1)
      have hver : getVersion r.newTag = w := by rw [hnew.1]; exact hparse
      refine ⟨r, hres, hnew.2.1, ?_, ?_, ?_, ?_⟩
      · rw [hver]; exact hwmem.1
      · intro hne htotal htrans u hu
        rw [hver]
        have hinv := bucketInv_bucket E config (E.getMajor (getVersion cur))
          (versionList E config cur) hne htotal htrans
        exact (hinv.2.2 UpgradeKey.latest w (by rw [hw]; simp)).2.2 u hu
          (upgradeKey_single_stream E config _ u hsingle)
      · rw [hver]; exact (tagUpgrade_type E config _ _ w r h1).1
      · rw [hver]; exact (tagUpgrade_type E config _ _ w r h1).2

/-- C16 (witness): current `1.2.0`, tags `1.2.0`, `1.3.0`, `2.0.0` and
`separateMajorMinor` false give one record, for `2.0.0`, of type `major`. -/
theorem single_stream_one_upgrade_witness :
    (∃ r, getPackageUpdates (dottedEnv ["1.2.0", "1.3.0", "2.0.0"] (fun _ => Digest.undefined))
        (plainConfig "1.2.0" false true) = Except.ok [r] ∧ r.isTagRecord = true ∧
      ∀ u ∈ versionList (dottedEnv ["1.2.0", "1.3.0", "2.0.0"] (fun _ => Digest.undefined))
          (plainConfig "1.2.0" false true) "1.2.0",
        (dottedEnv ["1.2.0", "1.3.0", "2.0.0"] (fun _ => Digest.undefined)).compareVersions u
          (getVersion r.newTag) ≤ 0) ∧
    Except.map (List.map Upgrade.newTag)
      (getPackageUpdates (dottedEnv ["1.2.0", "1.3.0", "2.0.0"] (fun _ => Digest.undefined))
        (plainConfig "1.2.0" false true)) = Except.ok ["2.0.0"] ∧
    Except.map (List.map Upgrade.type)
      (getPackageUpdates (dottedEnv ["1.2.0", "1.3.0", "2.0.0"] (fun _ => Digest.undefined))
        (plainConfig "1.2.0" false true)) = Except.ok [UpgradeType.major] := by
  obtain ⟨r, hr, ht, _, hmax, _⟩ :=
    (single_stream_one_upgrade (dottedEnv ["1.2.0", "1.3.0", "2.0.0"] (fun _ => Digest.undefined))
      (plainConfig "1.2.0" false true) "1.2.0" rfl (by decide) (by decide) (by decide)
      (Or.inl rfl)).2 (by decide)
  exact ⟨⟨r, hr, ht, hmax (by decide) (fun a b => compareParts_total _ _)
    (fun a b c => compareParts_trans _ _ _)⟩, rfl, rfl⟩

theorem upgradeKey_per_major (E : Env) (config : Config) (cm : Nat) (v : String)
    (hsep : config.separateMajorMinor = true) (hmulti : config.separateMultipleMajor = true)
    (hgroup : truthy config.groupName = false) (hauto : config.majorAutomerge = false) :
    upgradeKey E config cm v = UpgradeKey.num (E.getMajor v) := by
  simp [upgradeKey, hsep, hmulti, hgroup, hauto]

/-- C17: with a valid current tag, no digest handling and one bucket per
major (`separateMajorMinor` and `separateMultipleMajor` true, `groupName`
unset, `major.automerge` not true), the resolver returns tag records only,
one for each major that occurs among the eligible versions and no two for
the same major; each record carries an eligible version, with type `minor`
for the current major and `major` for a greater one; when the comparison is
a total preorder and the eligible versions are non-empty strings, every
eligible version of the same major is less than or equal to the version of
the record. -/
theorem per_major_upgrades (E : Env) (config : Config) (cur : String)
    (hct : config.currentTag = some cur) (hcur : cur ≠ "")
    (hvalid : E.isValid (getVersion cur) = true) (hnd : digestActive config = false)
    (hsep : config.separateMajorMinor = true) (hmulti : config.separateMultipleMajor = true)
    (hgroup : truthy config.groupName = false) (hauto : config.majorAutomerge = false) :
    ∃ result, getPackageUpdates E config = Except.ok result ∧
      (∀ r ∈ result, r.isTagRecord = true) ∧
      (result.map (fun r => E.getMajor (getVersion r.newTag))).Nodup ∧
      (∀ m, m ∈ result.map (fun r => E.getMajor (getVersion r.newTag)) ↔
        ∃ v ∈ versionList E config cur, E.getMajor v = m) ∧
      (∀ r ∈ result,
        getVersion r.newTag ∈ versionList E config cur ∧
        ((∀ v ∈ versionList E config cur, v ≠ "") →
          (∀ a b, E.compareVersions a b ≤ 0 ∨ E.compareVersions b a ≤ 0) →
          (∀ a b c, E.compareVersions a b ≤ 0 → E.compareVersions b c ≤ 0 →
            E.compareVersions a c ≤ 0) →
          ∀ u ∈ versionList E config cur,
            E.getMajor u = E.getMajor (getVersion r.newTag) →
            E.compareVersions u (getVersion r.newTag) ≤ 0) ∧
        (E.getMajor (getVersion r.newTag) = E.getMajor (getVersion cur) →
          r.type = UpgradeType.minor) ∧
        (E.getMajor (getVersion r.newTag) > E.getMajor (getVersion cur) →
          r.type = UpgradeType.major)) := by
  obtain ⟨records, hrec, hres⟩ := getPackageUpdates_plain E config cur hct hcur hvalid hnd
  obtain ⟨hnodup, hkeys, hent⟩ := bucketShape_bucket E config (E.getMajor (getVersion cur))
    (versionList E config cur)
  have hkey : ∀ v, upgradeKey E config (E.getMajor (getVersion cur)) v =
      UpgradeKey.num (E.getMajor v) :=
    fun v => upgradeKey_per_major E config _ v hsep hmulti hgroup hauto
  -- the winners are eligible versions, and `newTag` parses back to them
  have hwin : ∀ v ∈ winners (bucket E config (E.getMajor (getVersion cur))
      (versionList E config cur)), v ∈ versionList E config cur := by
    intro v hv
    obtain ⟨k, hk⟩ := mem_winners _ v hv
    exact (hent k v hk).1
  have hversions : records.map (fun r => getVersion r.newTag) =
      winners (bucket E config (E.getMajor (getVersion cur)) (versionList E config cur)) :=
    tagUpgrades_versions E config _ _ _ records hrec
      (fun v hv => parse_newTagOf_versionList E config cur v (hwin v hv))
  have hmajors : records.map (fun r => E.getMajor (getVersion r.newTag)) =
      (winners (bucket E config (E.getMajor (getVersion cur))
        (versionList E config cur))).map E.getMajor := by
    rw [← hversions, List.map_map]
    rfl
  -- the keys of the winners are the keys listed by `Object.keys`
  have hkeysWin : ((winners (bucket E config (E.getMajor (getVersion cur))
      (versionList E config cur))).map E.getMajor).map UpgradeKey.num =
      objectKeys (bucket E config (E.getMajor (getVersion cur))
        (versionList E config cur)) := by
    rw [List.map_map]
    apply winners_map_key
    intro k w hkw
    rw [← (hent k w hkw).2, hkey w]
    rfl
  have hnodupKeys : (objectKeys (bucket E config (E.getMajor (getVersion cur))
      (versionList E config cur))).Nodup :=
    (objectKeys_perm _).nodup_iff.2 hnodup
  have horigin : ∀ r ∈ records, ∃ v ∈ winners (bucket E config (E.getMajor (getVersion cur))
      (versionList E config cur)),
      tagUpgrade E config (E.getMajor (getVersion cur)) (getSuffix cur) v = Except.ok r ∧
      getVersion r.newTag = v := by
    intro r hr
    obtain ⟨v, hv, hok⟩ := mem_tagUpgrades E config _ _ _ records hrec r hr
    refine ⟨v, hv, hok, ?_⟩
    rw [(tagUpgrade_ok E config _ _ v r hok).1]
    exact parse_newTagOf_versionList E config cur v (hwin v hv)
  refine ⟨records, hres, ?_, ?_, ?_, ?_⟩
  · intro r hr
    obtain ⟨v, _, hok, _⟩ := horigin r hr
    exact (tagUpgrade_ok E config _ _ v r hok).2.1
  · rw [hmajors]
    rw [← hkeysWin] at hnodupKeys
    exact List.Nodup.of_map _ hnodupKeys
  · intro m
    rw [hmajors]
    constructor
    · intro hm
      obtain ⟨v, hv, hvm⟩ := List.mem_map.1 hm
      exact ⟨v, hwin v hv, hvm⟩
    · rintro ⟨v, hv, hvm⟩
      have hk := hkeys v hv
      rw [hkey v, hvm] at hk
      have hk2 : UpgradeKey.num m ∈ objectKeys (bucket E config (E.getMajor (getVersion cur))
          (versionList E config cur)) := (objectKeys_perm _).mem_iff.2 hk
      rw [← hkeysWin] at hk2
      obtain ⟨m2, hm2, heq⟩ := List.mem_map.1 hk2
      injection heq with heq
      subst heq
      exact hm2
  · intro r hr
    obtain ⟨v, hv, hok, hver⟩ := horigin r hr
    obtain ⟨k, hk⟩ := mem_winners _ v hv
    obtain ⟨h1, h2⟩ := hent k v hk
    rw [hver]
    refine ⟨h1, ?_, ?_, ?_⟩
    · intro hne htotal htrans u hu hmaj
      have hinv := bucketInv_bucket E config (E.getMajor (getVersion cur))
        (versionList E config cur) hne htotal htrans
      apply (hinv.2.2 k v hk).2.2 u hu
      rw [← h2, hkey u, hkey v, hmaj]
    · intro heq
      exact (tagUpgrade_type E config _ _ v r hok).2.2 (by omega)
    · intro hgt
      exact (tagUpgrade_type E config _ _ v r hok).1.2 hgt

/-- C17 (witness): current `1.2.0`, tags `1.2.0`, `1.3.0`, `2.0.0` with one
bucket per major give two records, `1.3.0` of type `minor` and `2.0.0` of type
`major`. -/
theorem per_major_upgrades_witness :
    (∃ result, getPackageUpdates
        (dottedEnv ["1.2.0", "1.3.0", "2.0.0"] (fun _ => Digest.undefined))
        (plainConfig "1.2.0" true true) = Except.ok result ∧
      (result.map (fun r =>
        (dottedEnv ["1.2.0", "1.3.0", "2.0.0"] (fun _ => Digest.undefined)).getMajor
          (getVersion r.newTag))).Nodup ∧
      ∀ r ∈ result,
        ∀ u ∈ versionList (dottedEnv ["1.2.0", "1.3.0", "2.0.0"] (fun _ => Digest.undefined))
            (plainConfig "1.2.0" true true) "1.2.0",
          (dottedEnv ["1.2.0", "1.3.0", "2.0.0"] (fun _ => Digest.undefined)).getMajor u =
            (dottedEnv ["1.2.0", "1.3.0", "2.0.0"] (fun _ => Digest.undefined)).getMajor
              (getVersion r.newTag) →
          (dottedEnv ["1.2.0", "1.3.0", "2.0.0"] (fun _ => Digest.undefined)).compareVersions u
            (getVersion r.newTag) ≤ 0) ∧
    Except.map (List.map Upgrade.newTag)
      (getPackageUpdates (dottedEnv ["1.2.0", "1.3.0", "2.0.0"] (fun _ => Digest.undefined))
        (plainConfig "1.2.0" true true)) = Except.ok ["1.3.0", "2.0.0"] ∧
    Except.map (List.map Upgrade.type)
      (getPackageUpdates (dottedEnv ["1.2.0", "1.3.0", "2.0.0"] (fun _ => Digest.undefined))
        (plainConfig "1.2.0" true true)) =
      Except.ok [UpgradeType.minor, UpgradeType.major] := by
  obtain ⟨result, hr, _, hn, _, hall⟩ :=
    per_major_upgrades (dottedEnv ["1.2.0", "1.3.0", "2.0.0"] (fun _ => Digest.undefined))
      (plainConfig "1.2.0" true true) "1.2.0" rfl (by decide) (by decide) (by decide)
      rfl rfl (by decide) rfl
  exact ⟨⟨result, hr, hn, fun r hrm => (hall r hrm).2.1 (by decide)
    (fun a b => compareParts_total _ _) (fun a b c => compareParts_trans _ _ _)⟩, rfl, rfl⟩

/-! ## No current tag -/

theorem getPackageUpdates_no_tag (E : Env) (config : Config) (upgrades : List Upgrade)
    (htag : truthy config.currentTag = false)
    (hdb : digestBranch E config = some upgrades) :
    getPackageUpdates E config = Except.ok (dropNullDigest upgrades) := by
  unfold getPackageUpdates
  rw [hdb]
  cases hc : config.currentTag with
  | none => rfl
  | some t =>
    rw [hc] at htag
    have : t = "" := by simpa [truthy] using htag
    simp [this]

/-- C18 (counterexample): with no current tag, no current digest and
`pinDigests` true, a registry that answers a digest for the untagged image
makes the resolver return one `pin` record for the tag `latest`. -/
theorem no_reference_data_counterexample :
    ({ plainConfig "" true true with currentTag := none, pinDigests := true } : Config).currentTag
      = none ∧
    ({ plainConfig "" true true with currentTag := none, pinDigests := true } : Config).currentDigest
      = none ∧
    Except.map (List.map Upgrade.newTag)
      (getPackageUpdates (dottedEnv [] (fun _ => Digest.str "sha256:abcdef1234567890"))
        { plainConfig "" true true with currentTag := none, pinDigests := true }) =
      Except.ok ["latest"] ∧
    Except.map (List.map Upgrade.type)
      (getPackageUpdates (dottedEnv [] (fun _ => Digest.str "sha256:abcdef1234567890"))
        { plainConfig "" true true with currentTag := none, pinDigests := true }) =
      Except.ok [UpgradeType.pin] :=
  ⟨rfl, rfl, rfl, rfl⟩

/-- C18 (amended): when the current tag and the current digest are both
absent, the resolver returns the empty list if `pinDigests` is false or the
registry answers no digest for the untagged image; with `pinDigests` true and
a registry digest `d` it returns exactly one record, of type `pin`, for the
tag `latest` and the digest `d`. -/
theorem no_reference_data (E : Env) (config : Config)
    (htag : truthy config.currentTag = false) (hdig : truthy config.currentDigest = false) :
    (config.pinDigests = false → getPackageUpdates E config = Except.ok []) ∧
    (config.pinDigests = true →
      (E.getDigest config.dockerRegistry config.depName config.currentTag).truthy = false →
      getPackageUpdates E config = Except.ok []) ∧
    (config.pinDigests = true → ∀ d,
      E.getDigest config.dockerRegistry config.depName config.currentTag = Digest.str d →
      d ≠ "" →
      ∃ r, getPackageUpdates E config = Except.ok [r] ∧ r.type = UpgradeType.pin ∧
        r.newTag = "latest" ∧ r.newDigest = Digest.str d) := by
  refine ⟨?_, ?_, ?_⟩
  · intro hpin
    have hnd : digestActive config = false := by simp [digestActive, hdig, hpin]
    rw [getPackageUpdates_no_tag E config [] htag (digestBranch_inactive E config hnd)]
    rfl
  · intro hpin hd
    have hact : digestActive config = true := by simp [digestActive, hpin]
    unfold getPackageUpdates
    rw [digestBranch_eq_none E config hact hd]
  · intro hpin d hd hd0
    have hact : digestActive config = true := by simp [digestActive, hpin]
    have hne : config.currentDigest ≠ some d := by
      intro h
      rw [h] at hdig
      simp [truthy, hd0] at hdig
    have hdb : digestBranch E config = some [digestUpgrade config d] := by
      simp [digestBranch, hact, hd, hd0, hne]
    refine ⟨digestUpgrade config d, ?_, ?_, ?_, rfl⟩
    · rw [getPackageUpdates_no_tag E config _ htag hdb]
      simp [dropNullDigest, digestUpgrade]
    · simp [digestUpgrade, hdig]
    · show tagOrLatest config.currentTag = "latest"
      cases hc : config.currentTag with
      | none => rfl
      | some t =>
        rw [hc] at htag
        have : t = "" := by simpa [truthy] using htag
        simp [tagOrLatest, this]

/-- C18 (witness): no tag, no digest and `pinDigests` false give the empty
list even with a registry that would answer a digest. -/
theorem no_reference_data_witness :
    getPackageUpdates (dottedEnv ["1.0.0"] (fun _ => Digest.str "sha256:abcdef1234567890"))
      { plainConfig "" true true with currentTag := none } = Except.ok [] :=
  (no_reference_data (dottedEnv ["1.0.0"] (fun _ => Digest.str "sha256:abcdef1234567890"))
    { plainConfig "" true true with currentTag := none } rfl rfl).1 rfl

/-! ## The final filter -/

theorem tagUpgrades_no_null (E : Env) (config : Config) (cm : Nat) (s : String)
    (versions : List String) (records : List Upgrade)
    (h : tagUpgrades E config cm s versions = Except.ok records) :
    ∀ r ∈ records, r.newDigest ≠ Digest.null := by
  intro r hr
  obtain ⟨v, _, hok⟩ := mem_tagUpgrades E config cm s versions records h r hr
  exact (tagUpgrade_ok E config cm s v r hok).2.2.1

theorem digestBranch_no_null (E : Env) (config : Config) (upgrades : List Upgrade)
    (hdb : digestBranch E config = some upgrades) :
    ∀ u ∈ upgrades, u.newDigest ≠ Digest.null := by
  intro u hu
  rcases (digestBranch_spec E config).2 upgrades hdb with ⟨h, _⟩ | ⟨d, _, h⟩
  · subst h; simp at hu
  · subst h
    simp only [List.mem_singleton] at hu
    subst hu
    simp [digestUpgrade]

/-- C19: the resolver returns what the resolver without the final filter
returns, on every input; no returned record has `newDigest` equal to `null`
(it is `undefined` or a non-empty string), so the filter of source line 165
removes nothing. -/
theorem final_filter_removes_nothing (E : Env) (config : Config) :
    getPackageUpdates E config = getPackageUpdatesUnfiltered E config ∧
    (∀ result, getPackageUpdatesUnfiltered E config = Except.ok result →
      (∀ r ∈ result, r.newDigest ≠ Digest.null ∧
        (r.newDigest = Digest.undefined ∨ ∃ s, s ≠ "" ∧ r.newDigest = Digest.str s)) ∧
      dropNullDigest result = result) := by
  have heq : getPackageUpdates E config = getPackageUpdatesUnfiltered E config := by
    unfold getPackageUpdates getPackageUpdatesUnfiltered
    cases hdb : digestBranch E config with
    | none => rfl
    | some upgrades =>
      have hnull := digestBranch_no_null E config upgrades hdb
      simp only
      cases hc : config.currentTag with
      | none =>
        simp only
        rw [dropNullDigest_eq_self upgrades hnull]
      | some cur =>
        simp only
        by_cases hcur : cur = ""
        · simp only [hcur, ne_eq, not_true_eq_false, if_false]
          rw [dropNullDigest_eq_self upgrades hnull]
        · simp only [hcur, ne_eq, not_false_eq_true, if_true]
          unfold tagBranch tagBranchUnfiltered
          simp only
          cases E.isValid (getVersion cur) with
          | false => rfl
          | true =>
            simp only [Bool.not_true, Bool.false_eq_true, if_false]
            cases htu : tagUpgrades E config (E.getMajor (getVersion cur)) (getSuffix cur)
                (winners (bucket E config (E.getMajor (getVersion cur))
                  (versionList E config cur))) with
            | error e => rfl
            | ok records =>
              simp only
              rw [dropNullDigest_eq_self]
              intro u hu
              rcases List.mem_append.1 hu with hu | hu
              · exact hnull u hu
              · exact tagUpgrades_no_null E config _ _ _ records htu u hu
  refine ⟨heq, ?_⟩
  intro result hres
  rw [← heq] at hres
  obtain ⟨D, T, hDT, hD, hT⟩ := result_shape E config result hres
  have hall : ∀ r ∈ result, r.newDigest ≠ Digest.null ∧
      (r.newDigest = Digest.undefined ∨ ∃ s, s ≠ "" ∧ r.newDigest = Digest.str s) := by
    intro r hr
    rw [hDT] at hr
    rcases List.mem_append.1 hr with h | h
    · rcases hD with ⟨h2, _⟩ | ⟨d, b, hch, h2⟩
      · subst h2; simp at h
      · subst h2
        simp only [List.mem_singleton] at h
        subst h
        exact ⟨by simp [digestUpgrade], Or.inr ⟨d, hch.2.2.1, rfl⟩⟩
    · obtain ⟨cur, v, _, _, _, _, hok⟩ := hT r h
      refine ⟨(tagUpgrade_ok E config _ _ v r hok).2.2.1, ?_⟩
      rcases (tagUpgrade_fields E config _ _ v r hok).2.2.2.2.2 with
        ⟨_, hu, _⟩ | ⟨_, dg, hdg, hs, _, _⟩
      · exact Or.inl hu
      · exact Or.inr ⟨dg, hdg, hs⟩
  exact ⟨hall, dropNullDigest_eq_self result (fun r hr => (hall r hr).1)⟩

/-- C19 (witness): a run with `pinDigests` that returns a pin record and a
tag record, both with a string digest. -/
theorem final_filter_removes_nothing_witness :
    ∃ result,
      getPackageUpdatesUnfiltered
        (dottedEnv ["1.2.0", "1.3.0"] (fun _ => Digest.str "sha256:abcdef1234567890"))
        { plainConfig "1.2.0" true true with pinDigests := true } = Except.ok result ∧
      result.map Upgrade.type = [UpgradeType.pin, UpgradeType.minor] ∧
      dropNullDigest result = result :=
  ⟨_, rfl, rfl,
    ((final_filter_removes_nothing
      (dottedEnv ["1.2.0", "1.3.0"] (fun _ => Digest.str "sha256:abcdef1234567890"))
      { plainConfig "1.2.0" true true with pinDigests := true }).2 _ rfl).2⟩

/-! ## Proposed tags and the registry's list -/

theorem newTagOf_eq_rebuild (tag : String) :
    newTagOf (getSuffix tag) (getVersion tag) = rebuild tag := by
  unfold newTagOf rebuild
  by_cases h : getSuffix tag = ""
  · simp [h]
  · simp only [h, ne_eq, not_false_eq_true, if_true, if_false]
    apply String.ext
    simp [String.data_append]

/-- When every tag of the registry's list is rebuilt by its parsed pieces
(none has its first dash, at an index greater than 0, as last character),
the tag of every returned tag record is in the registry's list. -/
theorem newTag_mem_tags (E : Env) (config : Config) (result : List Upgrade)
    (hres : getPackageUpdates E config = Except.ok result)
    (hrebuild : ∀ allTags, E.getTags config.dockerRegistry config.depName = some allTags →
      ∀ tag ∈ allTags, rebuild tag = tag) :
    ∀ r ∈ result, r.isTagRecord = true →
      ∃ allTags, E.getTags config.dockerRegistry config.depName = some allTags ∧
        r.newTag ∈ allTags := by
  intro r hr htag
  obtain ⟨cur, tag, _, _, ⟨allTags, hts, htm⟩, hsuf, _, hnew, _, _⟩ :=
    tag_record_origin E config result hres r hr htag
  refine ⟨allTags, hts, ?_⟩
  rw [hnew, ← hsuf, newTagOf_eq_rebuild, hrebuild allTags hts tag htm]
  exact htm

/-- C20 (failing input): the current tag `1.0.0` with the registry list
`1.1.0-` gives one tag record, for the tag `1.1.0`, which is not in the
registry's list. -/
theorem proposed_tag_missing_from_registry :
    (dottedEnv ["1.1.0-"] (fun _ => Digest.undefined)).getTags none "node" =
      some ["1.1.0-"] ∧
    Except.map (List.map Upgrade.newTag)
      (getPackageUpdates (dottedEnv ["1.1.0-"] (fun _ => Digest.undefined))
        (plainConfig "1.0.0" true true)) = Except.ok ["1.1.0"] ∧
    Except.map (List.map Upgrade.type)
      (getPackageUpdates (dottedEnv ["1.1.0-"] (fun _ => Digest.undefined))
        (plainConfig "1.0.0" true true)) = Except.ok [UpgradeType.minor] ∧
    "1.1.0" ∉ ["1.1.0-"] :=
  ⟨rfl, rfl, rfl, by decide⟩

/-! ## Ill-formed patterns -/

theorem isStableChecked_accepted (E : Env) (tag : String) (p : Option String)
    (h : patternRejected E p = false) :
    isStableChecked E tag p = Except.ok (isStable E tag p) := by
  cases p with
  | none => rfl
  | some q =>
    by_cases hq : q = ""
    · simp [isStableChecked, isStable, hq]
    · have hacc : E.regExpAccepts q = true := by
        simpa [patternRejected, hq] using h
      simp [isStableChecked, isStable, hq, hacc]

theorem isStableChecked_rejected (E : Env) (tag : String) (p : Option String)
    (h : patternRejected E p = true) :
    isStableChecked E tag p = Except.error "SyntaxError" := by
  cases p with
  | none => simp [patternRejected] at h
  | some q =>
    simp only [patternRejected, Bool.and_eq_true, decide_eq_true_eq, Bool.not_eq_true'] at h
    simp [isStableChecked, h.1, h.2]

theorem stabilityFilterChecked_accepted (E : Env) (config : Config) (tagVersion : String)
    (versions : List String) (h : patternRejected E config.unstablePattern = false) :
    stabilityFilterChecked E config (isStable E tagVersion config.unstablePattern)
        (E.getMajor tagVersion) versions =
      Except.ok (versions.filter (stabilityTest E config tagVersion)) := by
  induction versions with
  | nil => rfl
  | cons v rest ih =>
    simp only [stabilityFilterChecked, stabilityTestChecked,
      isStableChecked_accepted E v config.unstablePattern h, ih, List.filter_cons, stabilityTest]

theorem stabilityFilterChecked_rejected (E : Env) (config : Config) (currentlyStable : Bool)
    (currentMajor : Nat) (v : String) (rest : List String)
    (h : patternRejected E config.unstablePattern = true) :
    stabilityFilterChecked E config currentlyStable currentMajor (v :: rest) =
      Except.error "SyntaxError" := by
  simp [stabilityFilterChecked, stabilityTestChecked,
    isStableChecked_rejected E v config.unstablePattern h]

theorem versionListChecked_accepted (E : Env) (config : Config) (currentTag : String)
    (h : patternRejected E config.unstablePattern = false) :
    versionListChecked E config currentTag
        (isStable E (getVersion currentTag) config.unstablePattern) =
      Except.ok (versionList E config currentTag) := by
  unfold versionListChecked versionList
  cases E.getTags config.dockerRegistry config.depName with
  | none => rfl
  | some allTags =>
    simp only [stabilityFilterChecked_accepted E config (getVersion currentTag) _ h]
    rfl

/-- On a pattern the `RegExp` constructor accepts (or a falsy one) the
resolver with the exceptions of `isStable` is `getPackageUpdates`. -/
theorem getPackageUpdatesChecked_eq (E : Env) (config : Config)
    (h : patternRejected E config.unstablePattern = false) :
    getPackageUpdatesChecked E config = getPackageUpdates E config := by
  unfold getPackageUpdatesChecked getPackageUpdates
  cases digestBranch E config with
  | none => rfl
  | some upgrades =>
    cases config.currentTag with
    | none => rfl
    | some cur =>
      simp only
      by_cases hcur : cur = ""
      · simp [hcur]
      · simp only [hcur, ne_eq, not_false_eq_true, if_true]
        unfold tagBranchChecked tagBranch
        simp only [isStableChecked_accepted E (getVersion cur) config.unstablePattern h,
          versionListChecked_accepted E config cur h]

/-- With a truthy, valid current tag and an ill-formed pattern the resolver
throws at source line 69, once the digest branch has not returned. -/
theorem getPackageUpdatesChecked_rejected (E : Env) (config : Config) (cur : String)
    (upgrades : List Upgrade) (hct : config.currentTag = some cur) (hcur : cur ≠ "")
    (hvalid : E.isValid (getVersion cur) = true)
    (hdb : digestBranch E config = some upgrades)
    (h : patternRejected E config.unstablePattern = true) :
    getPackageUpdatesChecked E config = Except.error "SyntaxError" := by
  unfold getPackageUpdatesChecked
  simp only [hdb, hct, hcur, ne_eq, not_false_eq_true, if_true]
  unfold tagBranchChecked
  simp only [hvalid, Bool.not_true, Bool.false_eq_true, if_false,
    isStableChecked_rejected E (getVersion cur) config.unstablePattern h]

/-- C6 (counterexample): with `ignoreUnstable` false and the ill-formed
pattern `(`, the stability filter applied to the version `1.3.0` throws a
`SyntaxError` instead of keeping it, and so does the resolver for the current
tag `1.2.0` and the registry tag `1.3.0`; without a pattern the same run
proposes `1.3.0`. -/
theorem stability_filter_pattern_counterexample :
    ({ plainConfig "1.2.0" true true with
        unstablePattern := some "(", ignoreUnstable := false } : Config).ignoreUnstable
      = false ∧
    stabilityFilterChecked (dottedEnv ["1.3.0"] (fun _ => Digest.undefined))
      { plainConfig "1.2.0" true true with
        unstablePattern := some "(", ignoreUnstable := false } true 1 ["1.3.0"] =
      Except.error "SyntaxError" ∧
    getPackageUpdatesChecked (dottedEnv ["1.3.0"] (fun _ => Digest.undefined))
      { plainConfig "1.2.0" true true with
        unstablePattern := some "(", ignoreUnstable := false } =
      Except.error "SyntaxError" ∧
    Except.map (List.map Upgrade.newTag)
      (getPackageUpdatesChecked (dottedEnv ["1.3.0"] (fun _ => Digest.undefined))
        { plainConfig "1.2.0" true true with
          unstablePattern := none, ignoreUnstable := false }) = Except.ok ["1.3.0"] :=
  ⟨rfl, rfl, rfl, rfl⟩

/-- C6 (amended): when `ignoreUnstable` is false and the unstable pattern is
absent, empty or accepted by the `RegExp` constructor, the stability filter
returns every version of any list, for every current version; hence the list
of eligible versions is the same for all such patterns. -/
theorem stability_filter_vacuous (E : Env) (config : Config)
    (h : config.ignoreUnstable = false)
    (hacc : patternRejected E config.unstablePattern = false) :
    (∀ (currentlyStable : Bool) (currentMajor : Nat) (versions : List String),
      stabilityFilterChecked E config currentlyStable currentMajor versions =
        Except.ok versions) ∧
    (∀ (tagVersion : String) (versions : List String),
      versions.filter (stabilityTest E config tagVersion) = versions) ∧
    (∀ (p : Option String) (currentTag : String) (b1 b2 : Bool),
      patternRejected E p = false →
      versionListChecked E { config with unstablePattern := p } currentTag b1 =
        versionListChecked E config currentTag b2) := by
  have hfilter : ∀ (c : Config), c.ignoreUnstable = false →
      patternRejected E c.unstablePattern = false →
      ∀ (b : Bool) (m : Nat) (versions : List String),
        stabilityFilterChecked E c b m versions = Except.ok versions := by
    intro c hc hca b m versions
    induction versions with
    | nil => rfl
    | cons v rest ih =>
      simp [stabilityFilterChecked, stabilityTestChecked,
        isStableChecked_accepted E v c.unstablePattern hca, hc, ih]
  refine ⟨hfilter config h hacc, ?_, ?_⟩
  · intro tagVersion versions
    exact List.filter_eq_self.2
      (fun v _ => stabilityTest_of_not_ignoreUnstable E config tagVersion v h)
  · intro p currentTag b1 b2 hp
    unfold versionListChecked
    cases E.getTags config.dockerRegistry config.depName with
    | none => rfl
    | some allTags =>
      simp only [hfilter config h hacc,
        hfilter { config with unstablePattern := p } h hp]

/-- C6 (witness): with the accepted pattern `5` and `ignoreUnstable` false,
the versions `1.5.0` and `2.0.0` both pass the stability filter, although
`1.5.0` matches the pattern. -/
theorem stability_filter_vacuous_witness :
    stabilityFilterChecked (dottedEnv [] (fun _ => Digest.undefined))
      { plainConfig "1.2.0" true true with
        unstablePattern := some "5", ignoreUnstable := false } true 1 ["1.5.0", "2.0.0"] =
      Except.ok ["1.5.0", "2.0.0"] ∧
    isStable (dottedEnv [] (fun _ => Digest.undefined)) "1.5.0" (some "5") = false :=
  ⟨(stability_filter_vacuous (dottedEnv [] (fun _ => Digest.undefined))
      { plainConfig "1.2.0" true true with
        unstablePattern := some "5", ignoreUnstable := false } rfl (by decide)).1 true 1
      ["1.5.0", "2.0.0"],
   by decide⟩

end Docker
